import Mathlib

/-!
Verification of the squash waveform-scan parser (src/formats.py) against its
natural-language specification.

The development shallowly embeds the two versioned parsers
(`DataFormat_v1.parser`, `DataFormat_v2.parser`).  A file is a list of lines
(`List String`); Python stream reading is explicit state passing, `readline`
at end of stream returns the empty string as in Python.  Fallible operations
return `Except PyError _`.  The external numeric library primitives
(`fit_signal`, `fmin`, `powerlaw_doubleexp`, `curve_fit`), which the spec
declares out of scope, are parameters gathered in `NumLib`; the helpers from
`utils.py` (not under src/) are modelled from the spec and marked as such.
Exact rational arithmetic stands in for floating point.
-/

namespace Squash

/-- Python exception classes distinguished by the parser: the repository's
`DataParseError` (tagged with the offending raw content), the generic
`ValueError`, `numpy.linalg.LinAlgError` and `RuntimeError`. -/
inductive PyError where
  | dataParseError (data : String)
  | valueError (msg : String)
  | linAlgError
  | runtimeError
deriving DecidableEq

abbrev PyResult (α : Type) := Except PyError α

deriving instance DecidableEq for Except

/-- Python `str.strip()` on the character list: drop whitespace from both
ends. -/
def trimChars (cs : List Char) : List Char :=
  ((cs.dropWhile Char.isWhitespace).reverse.dropWhile Char.isWhitespace).reverse

/-- State machine for `s.split(' ')` composed with `filter(None, ...)`:
collect the maximal runs of non-space characters, dropping the empty
fragments produced between consecutive spaces. -/
def splitRunsGo : List Char → List Char → List (List Char)
  | [], cur => if cur.isEmpty then [] else [cur.reverse]
  | c :: cs, cur =>
      if c == ' ' then
        if cur.isEmpty then splitRunsGo cs []
        else cur.reverse :: splitRunsGo cs []
      else splitRunsGo cs (c :: cur)

/-- Split a character list into its space-separated non-empty runs. -/
def splitRuns (cs : List Char) : List (List Char) := splitRunsGo cs []

/-- Python `fp.readline()` on a list of lines: at end of stream it returns
the empty string, exactly as Python does. -/
def readline : List String → String × List String
  | [] => ("", [])
  | l :: ls => (l, ls)

/-- Modelled from the spec: `read_config_line` (utils.py, not under src/)
reads a single logical line from a config header; a premature end of stream
fails with a parse error tagged with the (empty) offending content. -/
def read_config_line : List String → PyResult (String × List String)
  | [] => .error (.dataParseError "")
  | l :: ls => .ok (l, ls)

/-- Modelled from the spec: `read_and_discard_lines` (utils.py, not under
src/) discards `n` lines from the stream; like `readline`, it tolerates end
of stream. -/
def read_and_discard_lines (ls : List String) (n : ℕ) : List String := ls.drop n

/-- Value of a decimal digit string; `none` when empty or non-digit. -/
def digitsVal (cs : List Char) : Option ℕ :=
  if cs ≠ [] ∧ cs.all Char.isDigit then
    some (cs.foldl (fun a c => 10 * a + (c.toNat - 48)) 0)
  else none

/-- Core of Python `int(...)`: optional sign followed by decimal digits. -/
def pyIntCore : List Char → Option ℤ
  | '-' :: r => (digitsVal r).map fun n => -(n : ℤ)
  | '+' :: r => (digitsVal r).map fun n => (n : ℤ)
  | r => (digitsVal r).map fun n => (n : ℤ)

/-- Python `int(s)`: strips surrounding whitespace, parses an optionally
signed decimal literal, and raises a generic `ValueError` naming the literal
otherwise (`invalid literal for int() with base 10`). -/
def pyInt (s : String) : PyResult ℤ :=
  match pyIntCore (trimChars s.toList) with
  | some v => .ok v
  | none => .error (.valueError s)

/-- Hexadecimal digit value. -/
def hexDigitVal (c : Char) : Option ℕ :=
  if c.isDigit then some (c.toNat - 48)
  else if 'a' ≤ c ∧ c ≤ 'f' then some (c.toNat - 87)
  else if 'A' ≤ c ∧ c ≤ 'F' then some (c.toNat - 55)
  else none

/-- Value of a hexadecimal digit list, `none` on a non-hex character. -/
def hexVal (cs : List Char) : Option ℕ :=
  cs.foldl (fun a c => a.bind fun n => (hexDigitVal c).map fun d => 16 * n + d) (some 0)

/-- Modelled from the spec: `split_dword` (utils.py, not under src/) splits
one encoded data word into a low/high half-sample pair and fails with a
decode error tagged with the offending token on malformed input.  The
well-formed token domain is fixed as 8 hexadecimal digits encoding a 32-bit
value; low half = value mod 2^16, high half = value div 2^16 (a bijection on
well-formed tokens, as the spec requires). -/
def split_dword (t : String) : PyResult (ℚ × ℚ) :=
  if t.toList.length = 8 then
    match hexVal t.toList with
    | some v => .ok (((v % 65536 : ℕ) : ℚ), ((v / 65536 : ℕ) : ℚ))
    | none => .error (.dataParseError t)
  else .error (.dataParseError t)

/-- Tokens of one data line: `line.strip().split(' ')` with empty tokens
filtered out (`filter(None, ...)`). -/
def tokensOfLine (l : String) : List String :=
  (splitRuns (trimChars l.toList)).map String.mk

/-- Read `n` data lines, concatenating their non-empty tokens in order
(the `raw.extend(filter(None, line.split(' ')))` loop). -/
def readDataLines : ℕ → List String → List String × List String
  | 0, ls => ([], ls)
  | n + 1, ls =>
      let r := readline ls
      let rest := readDataLines n r.2
      (tokensOfLine r.1 ++ rest.1, rest.2)

/-- Python `zip(*[iter(l)] * n)`: the list of consecutive chunks of exactly
`n` elements; a trailing remainder shorter than `n` is dropped. -/
def listChunks (n : ℕ) (l : List α) : List (List α) :=
  (List.range (l.length / n)).map fun k => (l.drop (k * n)).take n

/-- Low half of a token, with 0 as the (unreachable on success) default. -/
def lowOf (t : String) : ℚ :=
  match split_dword t with
  | .ok p => p.1
  | .error _ => 0

/-- High half of a token, with 0 as the (unreachable on success) default. -/
def highOf (t : String) : ℚ :=
  match split_dword t with
  | .ok p => p.2
  | .error _ => 0

/-- Decode one chunk of tokens into the pair (low samples, high samples):
the `for dword in group` loop appending to `channels[-2]`/`channels[-1]`. -/
def decodeChunk : List String → PyResult (List ℚ × List ℚ)
  | [] => .ok ([], [])
  | d :: ds => do
      let p ← split_dword d
      let r ← decodeChunk ds
      .ok (p.1 :: r.1, p.2 :: r.2)

/-- Decode the flat token sequence of one record: chunk it into runs of
`nsample` words and turn every chunk into two logical channels. -/
def decodeChannels (nsample : ℕ) (toks : List String) : PyResult (List (List ℚ)) := do
  let ps ← (listChunks nsample toks).mapM decodeChunk
  .ok (ps.flatMap fun p => [p.1, p.2])

/-- The numpy assignment `data[i, j] = channels`: succeeds only when the
decoded channels form an exact `(16, nsample)` block, otherwise raises the
generic shape `ValueError` (`could not broadcast input array`).  (Shapes
`(1, _)` or `(_, 1)` that numpy would broadcast cannot arise here: chunking
yields an even number of channels, each of length exactly `nsample`.) -/
def npAssign (nsample : ℕ) (chans : List (List ℚ)) : PyResult (List (List ℚ)) :=
  if chans.length == 16 && chans.all (fun c => c.length == nsample) then .ok chans
  else .error (.valueError "could not broadcast input array")

/-- Decode-and-store for the token sequence of one record. -/
def processTokens (nsample : ℕ) (toks : List String) : PyResult (List (List ℚ)) := do
  let chans ← decodeChannels nsample toks
  npAssign nsample chans

/-- One `(step, trial)` record of the body: discard `sep` separator lines,
discard `front` lines of skipped channel groups, read `nsample` data lines,
decode and store them, then discard `back` lines and 2 trailing lines. -/
def readRecord (sep front back nsample : ℕ) (ls : List String) :
    PyResult (List (List ℚ) × List String) :=
  let ls0 := read_and_discard_lines ls sep
  let ls1 := read_and_discard_lines ls0 front
  let r := readDataLines nsample ls1
  match processTokens nsample r.1 with
  | .error e => .error e
  | .ok chans =>
      let ls3 := read_and_discard_lines r.2 back
      let ls4 := read_and_discard_lines ls3 2
      .ok (chans, ls4)

/-- The nested `for i in range(nstep): for j in range(ntrial):` iteration
order as a flat schedule of `(step, trial)` pairs. -/
def pairsSched (n m : ℕ) : List (ℕ × ℕ) :=
  (List.range n).flatMap fun i => (List.range m).map fun j => (i, j)

/-- Separator lines the v2 record reader discards before record `(i, j)`:
`1` when `i == 0 and j == 0` (the header loop already consumed one line),
`2` otherwise. -/
def sepFor (i j : ℕ) : ℕ := if i = 0 ∧ j = 0 then 1 else 2

/-- The record-reading loop over a schedule of `(step, trial)` pairs,
collecting the decoded records in iteration order. -/
def bodyLoop (sepOf : ℕ → ℕ → ℕ) (front back nsample : ℕ) :
    List (ℕ × ℕ) → List String → PyResult (List (List (List ℚ)) × List String)
  | [], ls => .ok ([], ls)
  | p :: rest, ls =>
      match readRecord (sepOf p.1 p.2) front back nsample ls with
      | .error e => .error e
      | .ok r =>
          match bodyLoop sepOf front back nsample rest r.2 with
          | .error e => .error e
          | .ok r2 => .ok (r.1 :: r2.1, r2.2)

/-- Does a fallible computation succeed (Python: no exception raised)? -/
def pyOk : PyResult α → Bool
  | .ok _ => true
  | .error _ => false

/-- The tokens actually decoded by one record (the chunked prefix); any
trailing remainder shorter than `nsample` is dropped by the chunking. -/
def usedToks (nsample : ℕ) (toks : List String) : List String :=
  (listChunks nsample toks).flatten

/-- The 16 logical channels a record's token sequence decodes to: every
chunk contributes its low-half channel followed by its high-half channel. -/
def recChannels (nsample : ℕ) (toks : List String) : List (List ℚ) :=
  (listChunks nsample toks).flatMap fun c => [c.map lowOf, c.map highOf]

/-- The decoded sample the parser stores at channel `c`, sample `s` of a
record: the low (even `c`) or high (odd `c`) half of source token number
`(c / 2) * nsample + s` of that record. -/
def chanValue (nsample : ℕ) (toks : List String) (c s : ℕ) : ℚ :=
  if c % 2 = 0 then lowOf (toks.getD (c / 2 * nsample + s) "")
  else highOf (toks.getD (c / 2 * nsample + s) "")

/-- All non-empty tokens of a list of data lines, in order. -/
def concatToks (lines : List String) : List String := lines.flatMap tokensOfLine

/-- The lines of one well-formed `(step, trial)` record of a file body:
separator lines, the skipped front channel block, the `nsample` data lines,
the skipped back channel block, and the two trailing lines. -/
structure RecLines where
  sepL : List String
  frontL : List String
  dataL : List String
  backL : List String
  tailL : List String
deriving Inhabited

/-- The record's lines in file order. -/
def RecLines.flat (r : RecLines) : List String :=
  r.sepL ++ r.frontL ++ r.dataL ++ r.backL ++ r.tailL

/-- Well-formedness of a record against the scan geometry: the advertised
line counts hold, the data lines carry exactly `16 / 2 * nsample` encoded
words, and every word decodes. -/
def RecLines.wf (r : RecLines) (sep front back nsample : ℕ) : Prop :=
  r.sepL.length = sep ∧ r.frontL.length = front ∧ r.dataL.length = nsample ∧
  r.backL.length = back ∧ r.tailL.length = 2 ∧
  (concatToks r.dataL).length = 8 * nsample ∧
  ∀ t ∈ concatToks r.dataL, pyOk (split_dword t) = true

instance (r : RecLines) (sep front back nsample : ℕ) :
    Decidable (r.wf sep front back nsample) := by
  unfold RecLines.wf
  exact inferInstance

/-- Modelled from the spec: the reading of the v1 header that claim C6
asserts — label line, board-id line, four discarded lines, then four
integer lines supplying, in textual order, offset, n_steps, n_trials,
n_samples. -/
def specV1Geometry (ls : List String) : PyResult (ℤ × ℤ × ℤ × ℤ) := do
  let r0 ← read_config_line ls
  let r1 ← read_config_line r0.2
  let ls2 := read_and_discard_lines r1.2 4
  let r3 ← read_config_line ls2
  let offset ← pyInt r3.1
  let r4 ← read_config_line r3.2
  let nstep ← pyInt r4.1
  let r5 ← read_config_line r4.2
  let ntrial ← pyInt r5.1
  let r6 ← read_config_line r5.2
  let nsample ← pyInt r6.1
  .ok (offset, nstep, ntrial, nsample)

/-- The v1 header fields, in the order the lines are read: label line,
board-id line (converted with `int` and later used as the channel offset),
four discarded lines, then four integer lines. -/
structure V1Header where
  label : String
  offset : ℤ
  nstep : ℤ
  nstep_event : ℤ
  nstep_data : ℤ
  nsample : ℤ
deriving DecidableEq

/-- The v1 header reader (`DataFormat_v1.parser`, lines 70-83). -/
def parseV1Header (ls : List String) : PyResult (V1Header × List String) := do
  let r0 ← read_config_line ls
  let r1 ← read_config_line r0.2
  let offset ← pyInt r1.1
  let ls2 := read_and_discard_lines r1.2 4
  let r3 ← read_config_line ls2
  let nstep ← pyInt r3.1
  let r4 ← read_config_line r3.2
  let nstep_event ← pyInt r4.1
  let r5 ← read_config_line r4.2
  let nstep_data ← pyInt r5.1
  let r6 ← read_config_line r5.2
  let nsample ← pyInt r6.1
  .ok (⟨r0.1, offset, nstep, nstep_event, nstep_data, nsample⟩, r6.2)

/-- Python dict assignment `d[k] = v` (overwrite or append). -/
def dinsert (d : List (String × String)) (k v : String) : List (String × String) :=
  if d.any (fun p => p.1 == k) then d.map (fun p => if p.1 == k then (k, v) else p)
  else d ++ [(k, v)]

/-- Python `d.get(k, dflt)`. -/
def dget (d : List (String × String)) (k dflt : String) : String :=
  match d.find? (fun p => p.1 == k) with
  | some p => p.2
  | none => dflt

/-- Python `s.split(":", 1)`: the part before the first colon and
everything after it. -/
def splitKV (s : String) : String × String :=
  (String.mk (s.toList.takeWhile fun c => c != ':'),
   String.mk ((s.toList.dropWhile fun c => c != ':').drop 1))

/-- Python `":" in s`. -/
def hasColon (s : String) : Bool := s.toList.any fun c => c == ':'

/-- The v2 `KEY:VALUE` loop: read lines while they contain a colon, storing
each pair; the first line without a colon terminates the loop and is already
consumed. -/
def readKVLoop : List String → List (String × String) →
    PyResult (List (String × String) × List String)
  | [], _ => .error (.dataParseError "")
  | l :: ls, d =>
      if hasColon l then
        readKVLoop ls (dinsert d (splitKV l).1 (splitKV l).2)
      else .ok (d, ls)

/-- The v2 header fields extracted from the key/value dictionary. -/
structure V2Header where
  boardid : String
  channelmin : ℤ
  numberofsteps : ℤ
  eventsperstep : ℤ
  dacperstep : ℤ
  nsamples : ℤ
  dict : List (String × String)
deriving DecidableEq

/-- The v2 header reader (`DataFormat_v2.parser`, lines 210-224): build the
dictionary, then convert `CHANNELMIN, NUMBEROFSTEPS, EVENTSPERSTEP,
DACPERSTEP, NSAMPLES` with `int(tempDict.get(key, "NA"))` in that order. -/
def parseV2Header (ls : List String) : PyResult (V2Header × List String) := do
  let r ← readKVLoop ls []
  let channelmin ← pyInt (dget r.1 "CHANNELMIN" "NA")
  let numberofsteps ← pyInt (dget r.1 "NUMBEROFSTEPS" "NA")
  let eventsperstep ← pyInt (dget r.1 "EVENTSPERSTEP" "NA")
  let dacperstep ← pyInt (dget r.1 "DACPERSTEP" "NA")
  let nsamples ← pyInt (dget r.1 "NSAMPLES" "NA")
  .ok (⟨dget r.1 "BOARDID" "NA", channelmin, numberofsteps, eventsperstep,
        dacperstep, nsamples, r.1⟩, r.2)

/-- Entry into the raw waveform tensor `data[i][j][c][s]`, with the numpy
zero initialization as the out-of-range default. -/
def dataAt (data : List (List (List (List ℚ)))) (i j c s : ℕ) : ℚ :=
  (((data.getD i []).getD j []).getD c []).getD s 0

/-- `np.mean(data, axis=1)`: the average over the trial axis. -/
def np_mean_ax1 (data : List (List (List (List ℚ)))) (ntrial : ℕ) : ℕ → ℕ → ℕ → ℚ :=
  fun i c s => (((List.range ntrial).map fun j => dataAt data i j c s).sum) / (ntrial : ℚ)

/-- The square of `np.std(data, axis=1)` (population variance over the trial
axis, divisor `ntrial`, numpy default `ddof=0`).  The parser keeps sigma in
this squared representation — a bijective encoding on the nonnegatives —
because the exact square root is irrational; sigma itself is `np_std_ax1`
below, and sigma only ever flows into the abstract `fit_signal` oracle. -/
def np_std_sq_ax1 (data : List (List (List (List ℚ)))) (ntrial : ℕ) : ℕ → ℕ → ℕ → ℚ :=
  fun i c s =>
    (((List.range ntrial).map fun j =>
        (dataAt data i j c s - np_mean_ax1 data ntrial i c s) ^ 2).sum) / (ntrial : ℚ)

/-- `np.std(data, axis=1)`: the population standard deviation over the trial
axis. -/
noncomputable def np_std_ax1 (data : List (List (List (List ℚ)))) (ntrial : ℕ) :
    ℕ → ℕ → ℕ → ℝ :=
  fun i c s => Real.sqrt ((np_std_sq_ax1 data ntrial i c s : ℚ) : ℝ)

/-- The external numeric library (scipy/fitting.py), out of scope per the
spec: a bounded nonlinear least-squares fit of the pulse model, a scalar
minimizer, the pulse-shape model function, and the bounded linear
least-squares fit.  `fit_signal` receives the mean and (optionally) the
sigma tensor — represented by its square, see `np_std_sq_ax1` — plus
`nsample`, the step and channel indices, and the method string. -/
structure NumLib where
  fit_signal : (ℕ → ℕ → ℕ → ℚ) → Option (ℕ → ℕ → ℕ → ℚ) → ℕ → ℕ → ℕ → String →
    PyResult (List ℚ × List (List ℚ))
  fmin : (ℚ → List ℚ → ℚ) → ℚ → List ℚ → ℚ
  powerlaw_doubleexp : ℚ → List ℚ → ℚ
  curve_fit : (ℚ → List ℚ → ℚ) → List ℚ → List ℚ → List ℚ → List ℚ × List ℚ →
    PyResult (List ℚ × List (List ℚ))

/-- The method string both parsers pass to `fit_signal`
(`method='dogbox'`, lines 142 and 292 of formats.py). -/
def pulseFitMethod : String := "dogbox"

/-- Modelled from the spec: the library contract names the trust-region-
reflective strategy of the bounded least-squares primitive by the method
string `"trf"`; `"dogbox"` selects the distinct dogleg algorithm with
rectangular trust regions. -/
def trustRegionReflective : String := "trf"

/-- `min_form`: the negated pulse model handed to the minimizer. -/
def min_form (L : NumLib) : ℚ → List ℚ → ℚ := fun x p => -(L.powerlaw_doubleexp x p)

/-- Locate the fitted pulse maximum (`fmin(min_form, 5, args=tuple(popt))`)
and evaluate the model there. -/
def peakOf (L : NumLib) (popt : List ℚ) : ℚ :=
  L.powerlaw_doubleexp (L.fmin (min_form L) 5 popt) popt

/-- One `(step i, channel j)` attempt of the pulse-shape fitting loop
(lines 140-159): weighted fit; on `ValueError` retry unweighted, where
`LinAlgError` and `RuntimeError` are downgraded to "leave the default"
(`.ok none`); on `RuntimeError` of the weighted fit leave the default; any
other escaping exception propagates. -/
def pulsePoint (L : NumLib) (mean sigma : ℕ → ℕ → ℕ → ℚ) (nsample i j : ℕ) :
    PyResult (Option ℚ) :=
  match L.fit_signal mean (some sigma) nsample i j pulseFitMethod with
  | .ok r => .ok (some (peakOf L r.1))
  | .error (.valueError _) =>
      match L.fit_signal mean none nsample i j pulseFitMethod with
      | .ok r => .ok (some (peakOf L r.1))
      | .error .linAlgError => .ok none
      | .error .runtimeError => .ok none
      | .error e => .error e
  | .error .runtimeError => .ok none
  | .error e => .error e

/-- Write `y[j][i] = v` on the functional peak matrix. -/
def updY (y : ℕ → ℕ → ℚ) (j i : ℕ) (v : ℚ) : ℕ → ℕ → ℚ :=
  fun a b => if a = j ∧ b = i then v else y a b

/-- The pulse-shape fitting loop over the `(step, channel)` schedule,
threading the zero-initialized peak matrix `y`. -/
def pulseLoop (L : NumLib) (mean sigma : ℕ → ℕ → ℕ → ℚ) (nsample : ℕ) :
    List (ℕ × ℕ) → (ℕ → ℕ → ℚ) → PyResult (ℕ → ℕ → ℚ)
  | [], y => .ok y
  | (a, b) :: rest, y =>
      match pulsePoint L mean sigma nsample a b with
      | .error e => .error e
      | .ok none => pulseLoop L mean sigma nsample rest y
      | .ok (some v) => pulseLoop L mean sigma nsample rest (updY y b a v)

/-- Calibration initial guess `pval = [1500, 375]`. -/
def pval : List ℚ := [1500, 375]

/-- Calibration lower bounds `bmin = [500, 275]`. -/
def bmin : List ℚ := [500, 275]

/-- Calibration upper bounds `bmax = [2500, 475]`. -/
def bmax : List ℚ := [2500, 475]

/-- Modelled from the spec: `linear` (utils.py, not under src/) is the
linear model `peak = pedestal + gain * step`. -/
def linear (x : ℚ) (p : List ℚ) : ℚ := p.getD 0 0 + p.getD 1 0 * x

/-- `x[2:]` for `x = np.arange(nstep)`: the step indices with the first two
steps excluded. -/
def xdata (nstep : ℕ) : List ℚ := ((List.range nstep).map fun k => (Nat.cast k : ℚ)).drop 2

/-- The calibration fitting loop (lines 168-173): for every channel row of
the peak matrix, `curve_fit(linear, x[2:], y[i, 2:], p0=pval,
bounds=(bmin, bmax))`, collecting `(popt, pcov)` per channel. -/
def calibRows (cf : (ℚ → List ℚ → ℚ) → List ℚ → List ℚ → List ℚ → List ℚ × List ℚ →
    PyResult (List ℚ × List (List ℚ))) (nstep : ℕ) (y : List (List ℚ)) :
    PyResult (List (List ℚ × List (List ℚ))) :=
  y.mapM fun row => cf linear (xdata nstep) (row.drop 2) pval (bmin, bmax)

/-- `np.diag` of a square matrix given as nested lists. -/
def npDiag (m : List (List ℚ)) : List ℚ :=
  (List.range m.length).map fun k => (m.getD k []).getD k 0

/-- The stacked best-fit parameters `pars` (one `[pedestal, gain]` row per
channel). -/
def calibPars (rows : List (List ℚ × List (List ℚ))) : List (List ℚ) :=
  rows.map fun r => r.1

/-- The stacked squared standard errors: `np.diag(pcov)` per channel.  The
parser keeps the errors in this squared representation; `errs` itself is
`calibErrs` below. -/
def calibErrsSq (rows : List (List ℚ × List (List ℚ))) : List (List ℚ) :=
  rows.map fun r => npDiag r.2

/-- `errs`: `np.sqrt(np.diag(pcov))` stacked across channels. -/
noncomputable def calibErrs (rows : List (List ℚ × List (List ℚ))) : List (List ℝ) :=
  rows.map fun r => (npDiag r.2).map fun q => Real.sqrt (q : ℝ)

/-- One item of the flat textual entry record.  The stringified
`str(pars) + str(errs)` concatenation is kept as the (injectively rendered)
pair of matrices, since numpy's textual rendering is external. -/
inductive EntryItem where
  | str (s : String)
  | int (n : ℤ)
  | parsErrs (pars errsSq : List (List ℚ))

/-- The three mutually exclusive parser outputs: the raw waveform tensor,
the signal bundle, or the flat entry record. -/
inductive ParseOut where
  | raw (data : List (List (List (List ℚ))))
  | signal (mean sigmaSq : ℕ → ℕ → ℕ → ℚ) (y : List (List ℚ)) (pars errsSq : List (List ℚ))
  | entry (items : List EntryItem)

/-- Projection of a successful raw parse. -/
def rawData : PyResult ParseOut → Option (List (List (List (List ℚ))))
  | .ok (.raw d) => some d
  | _ => none

/-- The peak matrix `y` as the `(16, nstep)` nested list it is stored as. -/
def yList (y : ℕ → ℕ → ℚ) (nstep : ℕ) : List (List ℚ) :=
  (List.range 16).map fun j => (List.range nstep).map fun i => y j i

/-- `DataFormat_v1.parser` (formats.py lines 67-185).  The file contents are
passed as lines; `today` stands for the ambient `datetime.today()` clock. -/
def parserV1 (L : NumLib) (path : String) (file : List String) (output : String)
    (today : String) : PyResult ParseOut :=
  match parseV1Header file with
  | .error e => .error e
  | .ok (h, ls) =>
      let offset := h.offset
      let nstep := h.nstep
      let ntrial := h.nstep_event
      let nsample := h.nsample
      let group := Int.fdiv offset 16
      let front := group * nsample
      let back := (3 - group) * nsample
      if nstep < 0 ∨ ntrial < 0 ∨ nsample < 0 then
        .error (.valueError "negative dimensions are not allowed")
      else
        let nstepN := nstep.toNat
        let ntrialN := ntrial.toNat
        let nsampleN := nsample.toNat
        match bodyLoop (fun _ _ => 2) front.toNat back.toNat nsampleN
            (pairsSched nstepN ntrialN) ls with
        | .error e => .error e
        | .ok recs =>
            let data := listChunks ntrialN recs.1
            if output == "raw" then .ok (.raw data)
            else
              let mean := np_mean_ax1 data ntrialN
              let sigmaSq := np_std_sq_ax1 data ntrialN
              match pulseLoop L mean sigmaSq nsampleN (pairsSched nstepN 16)
                  (fun _ _ => 0) with
              | .error e => .error e
              | .ok y =>
                  match calibRows L.curve_fit nstepN (yList y nstepN) with
                  | .error e => .error e
                  | .ok rows =>
                      let pars := calibPars rows
                      let errsSq := calibErrsSq rows
                      if output == "signal" then
                        .ok (.signal mean sigmaSq (yList y nstepN) pars errsSq)
                      else
                        .ok (.entry [.str path, .str h.label, .int offset, .int nstep,
                          .int ntrial, .int h.nstep_data, .int nsample,
                          .parsErrs pars errsSq, .str ("ENTRY ADDED: " ++ today)])

/-- `DataFormat_v2.parser` (formats.py lines 202-336): colon-delimited
header, one fewer separator line before the very first record, and the
tester id appended last on the entry path only. -/
def parserV2 (L : NumLib) (path : String) (file : List String) (output : String)
    (today : String) : PyResult ParseOut :=
  match parseV2Header file with
  | .error e => .error e
  | .ok (h, ls) =>
      let offset := h.channelmin
      let nstep := h.numberofsteps
      let ntrial := h.eventsperstep
      let nsample := h.nsamples
      let group := Int.fdiv offset 16
      let front := group * nsample
      let back := (3 - group) * nsample
      if nstep < 0 ∨ ntrial < 0 ∨ nsample < 0 then
        .error (.valueError "negative dimensions are not allowed")
      else
        let nstepN := nstep.toNat
        let ntrialN := ntrial.toNat
        let nsampleN := nsample.toNat
        match bodyLoop sepFor front.toNat back.toNat nsampleN
            (pairsSched nstepN ntrialN) ls with
        | .error e => .error e
        | .ok recs =>
            let data := listChunks ntrialN recs.1
            if output == "raw" then .ok (.raw data)
            else
              let mean := np_mean_ax1 data ntrialN
              let sigmaSq := np_std_sq_ax1 data ntrialN
              match pulseLoop L mean sigmaSq nsampleN (pairsSched nstepN 16)
                  (fun _ _ => 0) with
              | .error e => .error e
              | .ok y =>
                  match calibRows L.curve_fit nstepN (yList y nstepN) with
                  | .error e => .error e
                  | .ok rows =>
                      let pars := calibPars rows
                      let errsSq := calibErrsSq rows
                      if output == "signal" then
                        .ok (.signal mean sigmaSq (yList y nstepN) pars errsSq)
                      else
                        .ok (.entry [.str path, .str h.boardid, .int offset, .int nstep,
                          .int ntrial, .int h.dacperstep, .int nsample,
                          .parsErrs pars errsSq, .str ("ENTRY ADDED: " ++ today),
                          .str (dget h.dict "TESTERID" "NA")])

/-- The raw waveform tensor a well-formed body decodes to: the flat list of
records in schedule order, reshaped into steps of `ntrial` trials. -/
def rawTensorOf (recs : List RecLines) (ntrialN nsampleN : ℕ) :
    List (List (List (List ℚ))) :=
  listChunks ntrialN (recs.map fun r => recChannels nsampleN (concatToks r.dataL))

/-! ### General helper lemmas -/

theorem pybind_ok (a : α) (f : α → PyResult β) :
    ((Except.ok a : PyResult α) >>= f) = f a := rfl

theorem pybind_err (e : PyError) (f : α → PyResult β) :
    ((Except.error e : PyResult α) >>= f) = .error e := rfl

theorem listChunks_length (n : ℕ) (l : List α) : (listChunks n l).length = l.length / n := by
  simp [listChunks]

theorem mem_listChunks_length {n : ℕ} {l : List α} (hn : 0 < n) {c : List α}
    (hc : c ∈ listChunks n l) : c.length = n := by
  simp only [listChunks, List.mem_map, List.mem_range] at hc
  obtain ⟨k, hk, rfl⟩ := hc
  have hkn : (k + 1) * n ≤ l.length := (Nat.le_div_iff_mul_le hn).mp hk
  rw [Nat.succ_mul] at hkn
  simp only [List.length_take, List.length_drop]
  omega

theorem listChunks_flatten (n : ℕ) (l : List α) (hn : 0 < n) :
    (listChunks n l).flatten = l.take (n * (l.length / n)) := by
  suffices h : ∀ m, m ≤ l.length / n →
      ((List.range m).map fun k => (l.drop (k * n)).take n).flatten = l.take (n * m) by
    exact h (l.length / n) le_rfl
  intro m
  induction m with
  | zero => simp
  | succ m ih =>
      intro hm
      rw [List.range_succ, List.map_append, List.flatten_append, ih (by omega)]
      have hmn : m * n ≤ l.length := by
        have := (Nat.le_div_iff_mul_le hn).mp (le_of_lt hm)
        omega
      simp only [List.map_cons, List.map_nil, List.flatten_cons, List.flatten_nil,
        List.append_nil]
      rw [Nat.mul_succ, List.take_add, Nat.mul_comm n m]

theorem listChunks_getD {n : ℕ} {l : List α} {k : ℕ} (hk : k < l.length / n) :
    (listChunks n l).getD k [] = (l.drop (k * n)).take n := by
  rw [listChunks, List.getD_eq_getElem?_getD, List.getElem?_map, List.getElem?_range hk]
  rfl

/-! ### Claim C9: the statistical reducer -/

/-- C9: the reducer is `np.mean`/`np.std` over the trial axis; when all
trials of a `(step, channel)` agree at some sample, the mean there equals
any single trial's value and the population standard deviation is exactly
zero. -/
theorem reducer_identical_trials (data : List (List (List (List ℚ))))
    (ntrial i c s j0 : ℕ) (h0 : 0 < ntrial) (_hj : j0 < ntrial)
    (hid : ∀ j, j < ntrial → dataAt data i j c s = dataAt data i j0 c s) :
    np_mean_ax1 data ntrial i c s = dataAt data i j0 c s
    ∧ np_std_ax1 data ntrial i c s = 0 := by
  have hnz : ((ntrial : ℚ)) ≠ 0 := Nat.cast_ne_zero.mpr h0.ne'
  have hrep : ((List.range ntrial).map fun j => dataAt data i j c s) =
      List.replicate ntrial (dataAt data i j0 c s) := by
    apply List.eq_replicate_iff.mpr
    constructor
    · simp
    · intro b hb
      simp only [List.mem_map, List.mem_range] at hb
      obtain ⟨j, hjlt, rfl⟩ := hb
      exact hid j hjlt
  have hmean : np_mean_ax1 data ntrial i c s = dataAt data i j0 c s := by
    rw [np_mean_ax1, hrep, List.sum_replicate, nsmul_eq_mul,
      mul_div_cancel_left₀ _ hnz]
  refine ⟨hmean, ?_⟩
  have hvar : np_std_sq_ax1 data ntrial i c s = 0 := by
    rw [np_std_sq_ax1]
    have : ((List.range ntrial).map fun j =>
        (dataAt data i j c s - np_mean_ax1 data ntrial i c s) ^ 2) =
        List.replicate ntrial 0 := by
      apply List.eq_replicate_iff.mpr
      refine ⟨by simp, ?_⟩
      intro b hb
      simp only [List.mem_map, List.mem_range] at hb
      obtain ⟨j, hjlt, rfl⟩ := hb
      rw [hmean, hid j hjlt, sub_self]
      ring
    rw [this, List.sum_replicate, smul_zero, zero_div]
  rw [np_std_ax1, hvar]
  simp

/-- C9 witness: a concrete two-trial tensor with identical trials. -/
theorem reducer_identical_trials_witness :
    np_mean_ax1 [[[[3]], [[3]]]] 2 0 0 0 = dataAt [[[[3]], [[3]]]] 0 0 0 0
    ∧ np_std_ax1 [[[[3]], [[3]]]] 2 0 0 0 = 0 :=
  reducer_identical_trials [[[[3]], [[3]]]] 2 0 0 0 0 (by decide) (by decide)
    (by decide)

/-! ### Claim C1: the calibration fit ignores steps 0 and 1 -/

/-- C1: the calibration stage fits `y[i, 2:]` against `x[2:]` with the fixed
initial guess `[1500, 375]` and bounds `[500, 275]`/`[2500, 475]`; two peak
matrices that agree on all steps at index at least 2 produce identical
calibration rows, hence identical `pars` and identical `errs`; the abscissa
really is the step indices `2 .. nstep - 1`. -/
theorem calibration_ignores_first_two_steps
    (cf : (ℚ → List ℚ → ℚ) → List ℚ → List ℚ → List ℚ → List ℚ × List ℚ →
      PyResult (List ℚ × List (List ℚ)))
    (nstep : ℕ) (y1 y2 : List (List ℚ))
    (hlen : y1.length = y2.length)
    (hag : ∀ k, k < y1.length → (y1.getD k []).drop 2 = (y2.getD k []).drop 2) :
    calibRows cf nstep y1 = calibRows cf nstep y2
    ∧ Except.map calibPars (calibRows cf nstep y1) =
        Except.map calibPars (calibRows cf nstep y2)
    ∧ Except.map calibErrs (calibRows cf nstep y1) =
        Except.map calibErrs (calibRows cf nstep y2)
    ∧ (xdata nstep).length = nstep - 2
    ∧ (∀ k, k < nstep - 2 → (xdata nstep).getD k 0 = ((k + 2 : ℕ) : ℚ))
    ∧ pval = [1500, 375] ∧ bmin = [500, 275] ∧ bmax = [2500, 475] := by
  have hmain : calibRows cf nstep y1 = calibRows cf nstep y2 := by
    unfold calibRows
    induction y1 generalizing y2 with
    | nil =>
        have : y2 = [] := by
          cases y2 with
          | nil => rfl
          | cons b t => simp at hlen
        rw [this]
    | cons a t ih =>
        cases y2 with
        | nil => simp at hlen
        | cons b t2 =>
            rw [List.mapM_cons, List.mapM_cons]
            have h0 : a.drop 2 = b.drop 2 := by
              have := hag 0 (by simp)
              simpa using this
            have ht : t.mapM (fun row => cf linear (xdata nstep) (row.drop 2) pval
                (bmin, bmax)) = t2.mapM (fun row => cf linear (xdata nstep) (row.drop 2)
                pval (bmin, bmax)) := by
              apply ih
              · simpa using hlen
              · intro k hk
                have := hag (k + 1) (by simpa using Nat.succ_lt_succ hk)
                simpa using this
            rw [h0, ht]
  have hx : xdata nstep = ((List.range nstep).drop 2).map fun j => (Nat.cast j : ℚ) := by
    rw [xdata]
    exact (List.map_drop _ _ 2).symm
  refine ⟨hmain, by rw [hmain], by rw [hmain], ?_, ?_, rfl, rfl, rfl⟩
  · rw [hx]
    simp
  · intro k hk
    rw [hx, List.getD_eq_getElem?_getD, List.getElem?_map, List.getElem?_drop,
      List.getElem?_range (by omega : 2 + k < nstep)]
    simp [Nat.add_comm 2 k]

/-- C1 witness: two concrete one-channel peak matrices differing only at
steps 0 and 1. -/
theorem calibration_ignores_first_two_steps_witness :
    calibRows (fun _ x y p _ => .ok (p, [[x.sum, 0], [0, y.sum]])) 4 [[5, 6, 1, 2]] =
    calibRows (fun _ x y p _ => .ok (p, [[x.sum, 0], [0, y.sum]])) 4 [[7, 8, 1, 2]] :=
  (calibration_ignores_first_two_steps
    (fun _ x y p _ => .ok (p, [[x.sum, 0], [0, y.sum]])) 4 [[5, 6, 1, 2]] [[7, 8, 1, 2]]
    (by decide) (by decide)).1

/-! ### Claim C8: the fit strategy string -/

/-- C8 counterexample: the method the pulse-shape fitting loop passes to the
bounded least-squares primitive is not the trust-region-reflective strategy
the claim names. -/
theorem fit_method_counterexample : pulseFitMethod ≠ trustRegionReflective := by
  decide

/-- C8 amended: both parsers perform every per-point pulse-shape fit with
the bounded `"dogbox"` strategy (the dogleg algorithm with rectangular trust
regions); only the fit primitive's behaviour at that method string can
influence the per-point result. -/
theorem fit_method_amended :
    pulseFitMethod = "dogbox"
    ∧ ∀ (L : NumLib)
        (g : (ℕ → ℕ → ℕ → ℚ) → Option (ℕ → ℕ → ℕ → ℚ) → ℕ → ℕ → ℕ → String →
          PyResult (List ℚ × List (List ℚ)))
        (mean sigma : ℕ → ℕ → ℕ → ℚ) (nsample i j : ℕ),
        (∀ m s n a b, L.fit_signal m s n a b pulseFitMethod = g m s n a b pulseFitMethod) →
        pulsePoint L mean sigma nsample i j =
          pulsePoint { L with fit_signal := g } mean sigma nsample i j := by
  refine ⟨rfl, ?_⟩
  intro L g mean sigma nsample i j h
  show pulsePoint L mean sigma nsample i j = _
  rw [pulsePoint, pulsePoint]
  rw [h mean (some sigma) nsample i j, h mean none nsample i j]
  rfl

/-- C8 amended witness: two fit primitives that agree at `"dogbox"` but
differ elsewhere give the same per-point result. -/
theorem fit_method_amended_witness :
    pulsePoint
      { fit_signal := fun _ _ _ _ _ mth => if mth == "dogbox" then .ok ([1], [[1]])
          else .error .runtimeError,
        fmin := fun _ x _ => x, powerlaw_doubleexp := fun _ p => p.getD 0 0,
        curve_fit := fun _ _ _ _ _ => .ok ([], []) } (fun _ _ _ => 0) (fun _ _ _ => 0) 1 0 0 =
    pulsePoint
      { fit_signal := fun _ _ _ _ _ _ => .ok ([1], [[1]]),
        fmin := fun _ x _ => x, powerlaw_doubleexp := fun _ p => p.getD 0 0,
        curve_fit := fun _ _ _ _ _ => .ok ([], []) } (fun _ _ _ => 0) (fun _ _ _ => 0) 1 0 0 :=
  fit_method_amended.2
    { fit_signal := fun _ _ _ _ _ mth => if mth == "dogbox" then .ok ([1], [[1]])
        else .error .runtimeError,
      fmin := fun _ x _ => x, powerlaw_doubleexp := fun _ p => p.getD 0 0,
      curve_fit := fun _ _ _ _ _ => .ok ([], []) }
    (fun _ _ _ _ _ _ => .ok ([1], [[1]]))
    (fun _ _ _ => 0) (fun _ _ _ => 0) 1 0 0 (fun _ _ _ _ _ => rfl)

/-! ### Claim C5: the v2 separator schedule -/

theorem range_map_sepFor_zero {m : ℕ} (hm : 0 < m) :
    (List.range m).map (fun j => sepFor 0 j) = 1 :: List.replicate (m - 1) 2 := by
  obtain ⟨k, rfl⟩ : ∃ k, m = k + 1 := ⟨m - 1, by omega⟩
  rw [List.range_succ_eq_map, List.map_cons, List.map_map]
  have h1 : sepFor 0 0 = 1 := by decide
  have h2 : ((fun j => sepFor 0 j) ∘ Nat.succ) = fun _ => 2 := by
    funext j
    simp [Function.comp, sepFor]
  rw [h1, h2, List.map_const']
  simp

theorem range_map_sepFor_pos {i : ℕ} (hi : i ≠ 0) (m : ℕ) :
    (List.range m).map (fun j => sepFor i j) = List.replicate m 2 := by
  have h2 : (fun j => sepFor i j) = fun _ => 2 := by
    funext j
    simp [sepFor, hi]
  rw [h2, List.map_const']
  simp

theorem flatMap_sepFor_pos (m : ℕ) :
    ∀ (L : List ℕ), (∀ a ∈ L, a ≠ 0) →
      (L.flatMap fun i => (List.range m).map fun j => sepFor i j) =
        List.replicate (L.length * m) 2 := by
  intro L
  induction L with
  | nil => simp
  | cons a t ih =>
      intro h
      rw [List.flatMap_cons, ih (fun b hb => h b (List.mem_cons_of_mem a hb)),
        range_map_sepFor_pos (h a (List.mem_cons_self a t)) m]
      rw [← List.replicate_add]
      congr 1
      simp only [List.length_cons]
      ring

theorem pairsSched_map_sepFor {n m : ℕ} (hn : 0 < n) (hm : 0 < m) :
    (pairsSched n m).map (fun p => sepFor p.1 p.2) =
      1 :: List.replicate (n * m - 1) 2 := by
  have hpush : ∀ (L : List ℕ),
      ((L.flatMap fun i => (List.range m).map fun j => (i, j)).map
        fun p => sepFor p.1 p.2) =
      L.flatMap fun i => (List.range m).map fun j => sepFor i j := by
    intro L
    induction L with
    | nil => rfl
    | cons a t ih =>
        rw [List.flatMap_cons, List.flatMap_cons, List.map_append, ih, List.map_map]
        rfl
  obtain ⟨k, rfl⟩ : ∃ k, n = k + 1 := ⟨n - 1, by omega⟩
  rw [pairsSched, hpush, List.range_succ_eq_map, List.flatMap_cons,
    range_map_sepFor_zero hm]
  have hmem : ∀ a ∈ (List.range k).map Nat.succ, a ≠ 0 := by
    intro a ha
    simp only [List.mem_map] at ha
    obtain ⟨b, _, rfl⟩ := ha
    exact Nat.succ_ne_zero b
  rw [List.flatMap_map]
  have := flatMap_sepFor_pos m ((List.range k).map Nat.succ) hmem
  rw [List.flatMap_map] at this
  rw [this]
  simp only [List.length_map, List.length_range, List.cons_append]
  rw [← List.replicate_add]
  congr 2
  have : (k + 1) * m = m + k * m := by ring
  omega

/-- C5: in the v2 record-reading loop, which iterates the `(step, trial)`
schedule `pairsSched nstep ntrial` and discards `sepFor i j` separator lines
at record `(i, j)`, exactly 1 separator line is discarded before the very
first record and exactly 2 before every other record. -/
theorem v2_separator_schedule {nstep ntrial : ℕ} (hn : 0 < nstep) (hm : 0 < ntrial) :
    (pairsSched nstep ntrial).map (fun p => sepFor p.1 p.2) =
      1 :: List.replicate (nstep * ntrial - 1) 2 :=
  pairsSched_map_sepFor hn hm

/-- C5 witness: the separator schedule of a 2-step, 3-trial scan. -/
theorem v2_separator_schedule_witness :
    (pairsSched 2 3).map (fun p => sepFor p.1 p.2) = 1 :: List.replicate 5 2 :=
  v2_separator_schedule (by decide) (by decide)

/-! ### Claim C2: the per-point fit fallback ladder -/

theorem mem_pairsSched {n m : ℕ} {p : ℕ × ℕ} :
    p ∈ pairsSched n m ↔ p.1 < n ∧ p.2 < m := by
  constructor
  · intro h
    simp only [pairsSched, List.mem_flatMap, List.mem_map, List.mem_range] at h
    obtain ⟨i, hi, j, hj, rfl⟩ := h
    exact ⟨hi, hj⟩
  · intro h
    simp only [pairsSched, List.mem_flatMap, List.mem_map, List.mem_range]
    exact ⟨p.1, h.1, p.2, h.2, rfl⟩

theorem nodup_pairsSched (n m : ℕ) : (pairsSched n m).Nodup := by
  induction n with
  | zero => simp [pairsSched]
  | succ k ih =>
      have hsplit : pairsSched (k + 1) m =
          pairsSched k m ++ (List.range m).map fun j => (k, j) := by
        rw [pairsSched, pairsSched, List.range_succ, List.flatMap_append]
        simp [List.flatMap_cons]
      rw [hsplit]
      refine List.Nodup.append ih ?_ ?_
      · exact (List.nodup_range m).map fun a b hab => by simpa using hab
      · intro q hq1 hq2
        have h1 : q.1 < k := (mem_pairsSched.mp hq1).1
        simp only [List.mem_map, List.mem_range] at hq2
        obtain ⟨j, _, rfl⟩ := hq2
        exact absurd h1 (lt_irrefl k)

theorem pulseLoop_skip {L : NumLib} {mean sigma : ℕ → ℕ → ℕ → ℚ} {nsample : ℕ} :
    ∀ (sched : List (ℕ × ℕ)) (y yf : ℕ → ℕ → ℚ) {i j : ℕ},
      (i, j) ∉ sched → pulseLoop L mean sigma nsample sched y = .ok yf →
      yf j i = y j i := by
  intro sched
  induction sched with
  | nil =>
      intro y yf i j _ h
      simp only [pulseLoop, Except.ok.injEq] at h
      rw [← h]
  | cons p rest ih =>
      obtain ⟨a, b⟩ := p
      intro y yf i j hmem h
      have hne : (i, j) ≠ (a, b) := fun he => hmem (he ▸ List.mem_cons_self _ _)
      have hnr : (i, j) ∉ rest := fun hm => hmem (List.mem_cons_of_mem _ hm)
      rw [pulseLoop] at h
      cases hpp : pulsePoint L mean sigma nsample a b with
      | error e => rw [hpp] at h; simp at h
      | ok r =>
          rw [hpp] at h
          cases r with
          | none => exact ih y yf hnr h
          | some v =>
              rw [ih (updY y b a v) yf hnr h, updY, if_neg]
              intro hc
              exact hne (by rw [hc.2, hc.1])

theorem pulseLoop_get {L : NumLib} {mean sigma : ℕ → ℕ → ℕ → ℚ} {nsample : ℕ} :
    ∀ (sched : List (ℕ × ℕ)) (y yf : ℕ → ℕ → ℚ) {i j : ℕ},
      sched.Nodup → (i, j) ∈ sched →
      pulseLoop L mean sigma nsample sched y = .ok yf →
      yf j i = (match pulsePoint L mean sigma nsample i j with
        | .ok (some v) => v
        | _ => y j i) := by
  intro sched
  induction sched with
  | nil =>
      intro y yf i j _ hm
      exact absurd hm (List.not_mem_nil _)
  | cons p rest ih =>
      obtain ⟨a, b⟩ := p
      intro y yf i j hnd hm h
      have hnd1 : (a, b) ∉ rest := (List.nodup_cons.mp hnd).1
      have hnd2 : rest.Nodup := (List.nodup_cons.mp hnd).2
      rw [pulseLoop] at h
      rcases List.mem_cons.mp hm with he | hmr
      · obtain ⟨rfl, rfl⟩ := Prod.mk.inj he
        cases hpp : pulsePoint L mean sigma nsample i j with
        | error e => rw [hpp] at h; simp at h
        | ok r =>
            rw [hpp] at h
            cases r with
            | none => exact pulseLoop_skip rest y yf hnd1 h
            | some v =>
                rw [pulseLoop_skip rest (updY y j i v) yf hnd1 h, updY, if_pos ⟨rfl, rfl⟩]
      · have hne : (i, j) ≠ (a, b) := fun he => hnd1 (he ▸ hmr)
        cases hpp : pulsePoint L mean sigma nsample a b with
        | error e => rw [hpp] at h; simp at h
        | ok r =>
            rw [hpp] at h
            cases r with
            | none => exact ih y yf hnd2 hmr h
            | some v =>
                rw [ih (updY y b a v) yf hnd2 hmr h]
                have hu : updY y b a v j i = y j i := by
                  rw [updY, if_neg]
                  intro hc
                  exact hne (by rw [hc.2, hc.1])
                cases pulsePoint L mean sigma nsample i j with
                | error e => simpa using hu
                | ok r2 =>
                    cases r2 with
                    | none => simpa using hu
                    | some w => rfl

theorem pulseLoop_total {L : NumLib} {mean sigma : ℕ → ℕ → ℕ → ℚ} {nsample : ℕ} :
    ∀ (sched : List (ℕ × ℕ)),
      (∀ p ∈ sched, ∃ r, pulsePoint L mean sigma nsample p.1 p.2 = .ok r) →
      ∀ y, ∃ yf, pulseLoop L mean sigma nsample sched y = .ok yf := by
  intro sched
  induction sched with
  | nil => exact fun _ y => ⟨y, rfl⟩
  | cons p rest ih =>
      obtain ⟨a, b⟩ := p
      intro hall y
      obtain ⟨r, hr⟩ := hall (a, b) (List.mem_cons_self _ _)
      have hrest := ih fun q hq => hall q (List.mem_cons_of_mem _ hq)
      rw [pulseLoop]
      rw [hr]
      cases r with
      | none => exact hrest y
      | some v => exact hrest (updY y b a v)

/-- C2 counterexample: a single-point fit failure can abort the whole
pipeline — when the weighted fit raises a value error and the unweighted
retry raises a value error as well, the retry's exception is not caught and
the fitting loop returns the error instead of continuing. -/
theorem pulse_fallback_counterexample :
    ({ fit_signal := fun _ _ _ _ _ _ => .error (.valueError "bad"),
       fmin := fun _ x _ => x, powerlaw_doubleexp := fun _ _ => 0,
       curve_fit := fun _ _ _ _ _ => .ok ([], []) } : NumLib).fit_signal
        (fun _ _ _ => 0) (some fun _ _ _ => 0) 2 0 0 pulseFitMethod =
      .error (.valueError "bad")
    ∧ pulseLoop
        { fit_signal := fun _ _ _ _ _ _ => .error (.valueError "bad"),
          fmin := fun _ x _ => x, powerlaw_doubleexp := fun _ _ => 0,
          curve_fit := fun _ _ _ _ _ => .ok ([], []) }
        (fun _ _ _ => 0) (fun _ _ _ => 0) 2 (pairsSched 1 16) (fun _ _ => 0) =
      .error (.valueError "bad") :=
  ⟨rfl, rfl⟩

/-- C2 amended: when the weighted fit for `(step i, channel j)` raises a
value error, the same fit is retried unweighted; a successful retry's peak
is stored in `peak_value[j][i]`, a retry failing with a linear-algebra or
non-convergence error leaves `peak_value[j][i]` at its zero default and the
loop continues; but a retry failing with a value error propagates and aborts
the loop (it is not caught), so only the handled failures are survived. -/
theorem pulse_fallback_amended (L : NumLib) (mean sigma : ℕ → ℕ → ℕ → ℚ)
    (nsample i j : ℕ) (m : String)
    (hw : L.fit_signal mean (some sigma) nsample i j pulseFitMethod =
      .error (.valueError m)) :
    (∀ popt pcov, L.fit_signal mean none nsample i j pulseFitMethod = .ok (popt, pcov) →
      pulsePoint L mean sigma nsample i j = .ok (some (peakOf L popt)))
    ∧ (L.fit_signal mean none nsample i j pulseFitMethod = .error .linAlgError →
      pulsePoint L mean sigma nsample i j = .ok none)
    ∧ (L.fit_signal mean none nsample i j pulseFitMethod = .error .runtimeError →
      pulsePoint L mean sigma nsample i j = .ok none)
    ∧ (∀ m2, L.fit_signal mean none nsample i j pulseFitMethod = .error (.valueError m2) →
      pulsePoint L mean sigma nsample i j = .error (.valueError m2))
    ∧ (∀ nstep yf, i < nstep → j < 16 →
      pulseLoop L mean sigma nsample (pairsSched nstep 16) (fun _ _ => 0) = .ok yf →
      yf j i = (match pulsePoint L mean sigma nsample i j with
        | .ok (some v) => v
        | _ => 0)) := by
  refine ⟨?_, ?_, ?_, ?_, ?_⟩
  · intro popt pcov hu
    rw [pulsePoint, hw, hu]
  · intro hu
    rw [pulsePoint, hw, hu]
  · intro hu
    rw [pulsePoint, hw, hu]
  · intro m2 hu
    rw [pulsePoint, hw, hu]
  · intro nstep yf hi hj h
    exact pulseLoop_get (pairsSched nstep 16) (fun _ _ => 0) yf
      (nodup_pairsSched nstep 16) (mem_pairsSched.mpr ⟨hi, hj⟩) h

/-- C2 amended witness: a weighted fit raising a value error whose
unweighted retry succeeds stores the retry's peak. -/
theorem pulse_fallback_amended_witness :
    pulsePoint
      { fit_signal := fun _ sg _ _ _ _ => match sg with
          | some _ => .error (.valueError "w")
          | none => .ok ([7], [[1]]),
        fmin := fun _ x _ => x, powerlaw_doubleexp := fun _ p => p.getD 0 0,
        curve_fit := fun _ _ _ _ _ => .ok ([], []) }
      (fun _ _ _ => 0) (fun _ _ _ => 0) 1 0 0 = .ok (some 7) :=
  (pulse_fallback_amended
    { fit_signal := fun _ sg _ _ _ _ => match sg with
        | some _ => .error (.valueError "w")
        | none => .ok ([7], [[1]]),
      fmin := fun _ x _ => x, powerlaw_doubleexp := fun _ p => p.getD 0 0,
      curve_fit := fun _ _ _ _ _ => .ok ([], []) }
    (fun _ _ _ => 0) (fun _ _ _ => 0) 1 0 0 "w" rfl).1 [7] [[1]] rfl

/-! ### Claim C4: missing v2 header key -/

/-- C4: evaluating the code at the failing input.  A v2 header with
`CHANNELMIN` absent makes `int(tempDict.get("CHANNELMIN", "NA"))` raise the
generic conversion `ValueError` on the literal `"NA"` — not a header parse
error of the parser's own `DataFormatError` family — although the record
reader is indeed never entered (the parse stops inside the header stage). -/
theorem v2_missing_key_eval :
    parserV2
      { fit_signal := fun _ _ _ _ _ _ => .error .runtimeError,
        fmin := fun _ x _ => x, powerlaw_doubleexp := fun _ _ => 0,
        curve_fit := fun _ _ _ _ _ => .ok ([], []) }
      "f.dat"
      ["BOARDID:B7", "NUMBEROFSTEPS:2", "EVENTSPERSTEP:3", "DACPERSTEP:4",
        "NSAMPLES:5", "end"] "entry" "today" = .error (.valueError "NA")
    ∧ parseV2Header
      ["BOARDID:B7", "NUMBEROFSTEPS:2", "EVENTSPERSTEP:3", "DACPERSTEP:4",
        "NSAMPLES:5", "end"] = .error (.valueError "NA") :=
  ⟨rfl, rfl⟩

/-! ### Claim C6: the v1 header geometry -/

/-- C6 counterexample: on a concrete v1 header whose board-id line is `16`
and whose four integer lines are `7, 3, 99, 4`, the parser takes
`offset = 16` from the board-id line and `(nstep, ntrial, nsample) =
(7, 3, 4)` from integer lines 1, 2 and 4 — not the claim's reading
`(offset, n_steps, n_trials, n_samples) = (7, 3, 99, 4)` from the four
integer lines. -/
theorem v1_header_counterexample :
    parseV1Header ["LBL", "16", "w", "x", "y", "z", "7", "3", "99", "4"] =
      .ok (⟨"LBL", 16, 7, 3, 99, 4⟩, [])
    ∧ specV1Geometry ["LBL", "16", "w", "x", "y", "z", "7", "3", "99", "4"] =
      .ok (7, 3, 99, 4)
    ∧ ((⟨"LBL", 16, 7, 3, 99, 4⟩ : V1Header).offset,
        (⟨"LBL", 16, 7, 3, 99, 4⟩ : V1Header).nstep,
        (⟨"LBL", 16, 7, 3, 99, 4⟩ : V1Header).nstep_event,
        (⟨"LBL", 16, 7, 3, 99, 4⟩ : V1Header).nsample) ≠
      ((7 : ℤ), (3 : ℤ), (99 : ℤ), (4 : ℤ)) :=
  ⟨rfl, rfl, by decide⟩

/-- C6 amended: the v1 header reads the label line, then the board-id line
whose integer value becomes the channel `offset`, discards four lines, and
the four integer lines supply `n_steps`, `n_trials` (the event count), an
unused value, and `n_samples`, in that textual order. -/
theorem v1_header_amended (label bline w x y z l3 l4 l5 l6 : String)
    (rest : List String) (o a b c d : ℤ)
    (ho : pyInt bline = .ok o) (ha : pyInt l3 = .ok a) (hb : pyInt l4 = .ok b)
    (hc : pyInt l5 = .ok c) (hd : pyInt l6 = .ok d) :
    parseV1Header ([label, bline, w, x, y, z, l3, l4, l5, l6] ++ rest) =
      .ok (⟨label, o, a, b, c, d⟩, rest) := by
  simp only [parseV1Header, read_config_line, read_and_discard_lines, List.cons_append,
    List.nil_append, List.drop_succ_cons, List.drop_zero, bind, Except.bind, ho, ha,
    hb, hc, hd]

/-- C6 amended witness: a concrete well-formed v1 header. -/
theorem v1_header_amended_witness :
    parseV1Header ["A", "32", "p", "q", "r", "s", "5", "6", "7", "8"] =
      .ok (⟨"A", 32, 5, 6, 7, 8⟩, []) :=
  v1_header_amended "A" "32" "p" "q" "r" "s" "5" "6" "7" "8" [] 32 5 6 7 8
    rfl rfl rfl rfl rfl

/-! ### Claim C10: unrecognized output modes -/

theorem parserV1_mode_entry (L : NumLib) (path : String) (file : List String)
    (today mode : String) (h1 : mode ≠ "raw") (h2 : mode ≠ "signal") :
    parserV1 L path file mode today = parserV1 L path file "entry" today := by
  have hr : (mode == "raw") = false := beq_eq_false_iff_ne.mpr h1
  have hs : (mode == "signal") = false := beq_eq_false_iff_ne.mpr h2
  have he1 : (("entry" : String) == "raw") = false := rfl
  have he2 : (("entry" : String) == "signal") = false := rfl
  rw [parserV1, parserV1]
  cases parseV1Header file with
  | error e => rfl
  | ok hl =>
      obtain ⟨h, ls⟩ := hl
      simp only [hr, hs, he1, he2, Bool.false_eq_true, if_false]

theorem parserV2_mode_entry (L : NumLib) (path : String) (file : List String)
    (today mode : String) (h1 : mode ≠ "raw") (h2 : mode ≠ "signal") :
    parserV2 L path file mode today = parserV2 L path file "entry" today := by
  have hr : (mode == "raw") = false := beq_eq_false_iff_ne.mpr h1
  have hs : (mode == "signal") = false := beq_eq_false_iff_ne.mpr h2
  have he1 : (("entry" : String) == "raw") = false := rfl
  have he2 : (("entry" : String) == "signal") = false := rfl
  rw [parserV2, parserV2]
  cases parseV2Header file with
  | error e => rfl
  | ok hl =>
      obtain ⟨h, ls⟩ := hl
      simp only [hr, hs, he1, he2, Bool.false_eq_true, if_false]

theorem parserV1_entry_shape (L : NumLib) (path : String) (file : List String)
    (today : String) :
    ∀ r, parserV1 L path file "entry" today = .ok r → ∃ items, r = .entry items := by
  intro r
  have he1 : (("entry" : String) == "raw") = false := rfl
  have he2 : (("entry" : String) == "signal") = false := rfl
  rw [parserV1]
  simp only [he1, he2, Bool.false_eq_true, if_false]
  cases parseV1Header file with
  | error e => intro h; simp at h
  | ok hl =>
      obtain ⟨h, ls⟩ := hl
      dsimp only
      split
      · intro h; simp at h
      · cases bodyLoop (fun _ _ => 2) (Int.fdiv h.offset 16 * h.nsample).toNat
            ((3 - Int.fdiv h.offset 16) * h.nsample).toNat h.nsample.toNat
            (pairsSched h.nstep.toNat h.nstep_event.toNat) ls with
        | error e => intro h; simp at h
        | ok recs =>
            dsimp only
            cases pulseLoop L (np_mean_ax1 (listChunks h.nstep_event.toNat recs.1)
                h.nstep_event.toNat) (np_std_sq_ax1 (listChunks h.nstep_event.toNat recs.1)
                h.nstep_event.toNat) h.nsample.toNat (pairsSched h.nstep.toNat 16)
                (fun _ _ => 0) with
            | error e => intro h; simp at h
            | ok y =>
                dsimp only
                cases calibRows L.curve_fit h.nstep.toNat (yList y h.nstep.toNat) with
                | error e => intro h; simp at h
                | ok rows =>
                    intro hok
                    exact ⟨_, (Except.ok.inj hok).symm⟩

theorem parserV2_entry_shape (L : NumLib) (path : String) (file : List String)
    (today : String) :
    ∀ r, parserV2 L path file "entry" today = .ok r → ∃ items, r = .entry items := by
  intro r
  have he1 : (("entry" : String) == "raw") = false := rfl
  have he2 : (("entry" : String) == "signal") = false := rfl
  rw [parserV2]
  simp only [he1, he2, Bool.false_eq_true, if_false]
  cases parseV2Header file with
  | error e => intro h; simp at h
  | ok hl =>
      obtain ⟨h, ls⟩ := hl
      dsimp only
      split
      · intro h; simp at h
      · cases bodyLoop sepFor (Int.fdiv h.channelmin 16 * h.nsamples).toNat
            ((3 - Int.fdiv h.channelmin 16) * h.nsamples).toNat h.nsamples.toNat
            (pairsSched h.numberofsteps.toNat h.eventsperstep.toNat) ls with
        | error e => intro h; simp at h
        | ok recs =>
            dsimp only
            cases pulseLoop L (np_mean_ax1 (listChunks h.eventsperstep.toNat recs.1)
                h.eventsperstep.toNat) (np_std_sq_ax1 (listChunks h.eventsperstep.toNat
                recs.1) h.eventsperstep.toNat) h.nsamples.toNat
                (pairsSched h.numberofsteps.toNat 16) (fun _ _ => 0) with
            | error e => intro h; simp at h
            | ok y =>
                dsimp only
                cases calibRows L.curve_fit h.numberofsteps.toNat
                    (yList y h.numberofsteps.toNat) with
                | error e => intro h; simp at h
                | ok rows =>
                    intro hok
                    exact ⟨_, (Except.ok.inj hok).symm⟩

/-- C10: for any output mode other than `"raw"` and `"signal"` — arbitrary
unrecognized strings included — both parsers behave exactly as in the
default `"entry"` mode and any successful result is the flat entry record;
the mode is never validated and no error is raised for an unknown mode. -/
theorem unknown_output_mode_entry (L : NumLib) (path : String) (file : List String)
    (today mode : String) (h1 : mode ≠ "raw") (h2 : mode ≠ "signal") :
    parserV1 L path file mode today = parserV1 L path file "entry" today
    ∧ parserV2 L path file mode today = parserV2 L path file "entry" today
    ∧ (∀ r, parserV1 L path file mode today = .ok r → ∃ items, r = .entry items)
    ∧ (∀ r, parserV2 L path file mode today = .ok r → ∃ items, r = .entry items) := by
  refine ⟨parserV1_mode_entry L path file today mode h1 h2,
    parserV2_mode_entry L path file today mode h1 h2, ?_, ?_⟩
  · intro r hr
    exact parserV1_entry_shape L path file today r
      (parserV1_mode_entry L path file today mode h1 h2 ▸ hr)
  · intro r hr
    exact parserV2_entry_shape L path file today r
      (parserV2_mode_entry L path file today mode h1 h2 ▸ hr)

/-- C10 witness: the unrecognized mode `"banana"` on a concrete file. -/
theorem unknown_output_mode_entry_witness :
    parserV1
      { fit_signal := fun _ _ _ _ _ _ => .error .runtimeError,
        fmin := fun _ x _ => x, powerlaw_doubleexp := fun _ _ => 0,
        curve_fit := fun _ _ _ _ _ => .ok ([], []) }
      "p" ["L"] "banana" "t" =
    parserV1
      { fit_signal := fun _ _ _ _ _ _ => .error .runtimeError,
        fmin := fun _ x _ => x, powerlaw_doubleexp := fun _ _ => 0,
        curve_fit := fun _ _ _ _ _ => .ok ([], []) }
      "p" ["L"] "entry" "t" :=
  (unknown_output_mode_entry
    { fit_signal := fun _ _ _ _ _ _ => .error .runtimeError,
      fmin := fun _ x _ => x, powerlaw_doubleexp := fun _ _ => 0,
      curve_fit := fun _ _ _ _ _ => .ok ([], []) }
    "p" ["L"] "t" "banana" (by decide) (by decide)).1

/-! ### Claim C3: record-level error behaviour -/

theorem split_dword_error_eq {t : String} {e : PyError}
    (h : split_dword t = .error e) : e = .dataParseError t := by
  rw [split_dword] at h
  split at h
  · split at h
    · simp at h
    · exact (Except.error.inj h).symm
  · exact (Except.error.inj h).symm

theorem decodeChunk_ok {ch : List String}
    (h : ∀ t ∈ ch, pyOk (split_dword t) = true) :
    decodeChunk ch = .ok (ch.map lowOf, ch.map highOf) := by
  induction ch with
  | nil => rfl
  | cons d ds ih =>
      have hd := h d (List.mem_cons_self _ _)
      obtain ⟨p, hp⟩ : ∃ p, split_dword d = .ok p := by
        cases hsd : split_dword d with
        | ok p => exact ⟨p, rfl⟩
        | error e => rw [hsd] at hd; simp [pyOk] at hd
      have hlow : lowOf d = p.1 := by rw [lowOf, hp]
      have hhigh : highOf d = p.2 := by rw [highOf, hp]
      rw [decodeChunk, hp, ih fun t ht => h t (List.mem_cons_of_mem _ ht)]
      rw [pybind_ok, pybind_ok]
      rw [List.map_cons, List.map_cons, hlow, hhigh]

theorem decodeChunk_err {ch : List String}
    (h : ∃ t ∈ ch, pyOk (split_dword t) = false) :
    ∃ t ∈ ch, decodeChunk ch = .error (.dataParseError t) := by
  induction ch with
  | nil => simp at h
  | cons d ds ih =>
      by_cases hd : pyOk (split_dword d) = true
      · obtain ⟨p, hp⟩ : ∃ p, split_dword d = .ok p := by
          cases hsd : split_dword d with
          | ok p => exact ⟨p, rfl⟩
          | error e => rw [hsd] at hd; simp [pyOk] at hd
        have hds : ∃ t ∈ ds, pyOk (split_dword t) = false := by
          obtain ⟨t, ht, htf⟩ := h
          rcases List.mem_cons.mp ht with rfl | htds
          · rw [htf] at hd; simp at hd
          · exact ⟨t, htds, htf⟩
        obtain ⟨t, ht, herr⟩ := ih hds
        refine ⟨t, List.mem_cons_of_mem _ ht, ?_⟩
        rw [decodeChunk, hp, pybind_ok, herr, pybind_err]
      · have hd2 : pyOk (split_dword d) = false := by
          cases hb : pyOk (split_dword d)
          · rfl
          · exact absurd hb hd
        obtain ⟨e, he⟩ : ∃ e, split_dword d = .error e := by
          cases hsd : split_dword d with
          | ok p => rw [hsd] at hd2; simp [pyOk] at hd2
          | error e => exact ⟨e, rfl⟩
        have := split_dword_error_eq he
        subst this
        refine ⟨d, List.mem_cons_self _ _, ?_⟩
        rw [decodeChunk, he, pybind_err]

theorem mapM_decodeChunk_ok {cs : List (List String)}
    (h : ∀ c ∈ cs, ∀ t ∈ c, pyOk (split_dword t) = true) :
    cs.mapM decodeChunk = .ok (cs.map fun c => (c.map lowOf, c.map highOf)) := by
  induction cs with
  | nil => rfl
  | cons c cs ih =>
      rw [List.mapM_cons, decodeChunk_ok (h c (List.mem_cons_self _ _)),
        ih fun c2 hc2 => h c2 (List.mem_cons_of_mem _ hc2)]
      rfl

theorem mapM_decodeChunk_err {cs : List (List String)}
    (h : ∃ c ∈ cs, ∃ t ∈ c, pyOk (split_dword t) = false) :
    ∃ t ∈ cs.flatten, cs.mapM decodeChunk = .error (.dataParseError t) := by
  induction cs with
  | nil => simp at h
  | cons c cs ih =>
      by_cases hc : ∀ t ∈ c, pyOk (split_dword t) = true
      · have hcs : ∃ c2 ∈ cs, ∃ t ∈ c2, pyOk (split_dword t) = false := by
          obtain ⟨c2, hc2, t, ht, htf⟩ := h
          rcases List.mem_cons.mp hc2 with rfl | hc2cs
          · rw [hc t ht] at htf; simp at htf
          · exact ⟨c2, hc2cs, t, ht, htf⟩
        obtain ⟨t, ht, herr⟩ := ih hcs
        refine ⟨t, ?_, ?_⟩
        · rw [List.flatten_cons]
          exact List.mem_append_right _ ht
        · rw [List.mapM_cons, decodeChunk_ok hc, herr]
          rfl
      · push_neg at hc
        obtain ⟨t, ht, htf⟩ := hc
        have htf2 : pyOk (split_dword t) = false := by
          cases hb : pyOk (split_dword t)
          · rfl
          · exact absurd hb htf
        obtain ⟨t2, ht2, herr⟩ := decodeChunk_err ⟨t, ht, htf2⟩
        refine ⟨t2, ?_, ?_⟩
        · rw [List.flatten_cons]
          exact List.mem_append_left _ ht2
        · rw [List.mapM_cons, herr]
          rfl

theorem flatMap_pair_length (cs : List (List String)) :
    (cs.flatMap fun c => [c.map lowOf, c.map highOf]).length = 2 * cs.length := by
  induction cs with
  | nil => rfl
  | cons c cs ih =>
      simp only [List.flatMap_cons, List.length_append, ih, List.length_cons,
        List.length_nil]
      omega

theorem decodeChannels_ok {n : ℕ} {toks : List String}
    (h : ∀ t ∈ usedToks n toks, pyOk (split_dword t) = true) :
    decodeChannels n toks = .ok (recChannels n toks) := by
  have hall : ∀ c ∈ listChunks n toks, ∀ t ∈ c, pyOk (split_dword t) = true := by
    intro c hc t ht
    exact h t (List.mem_flatten.mpr ⟨c, hc, ht⟩)
  rw [decodeChannels, mapM_decodeChunk_ok hall, pybind_ok, recChannels,
    List.flatMap_map]

theorem decodeChannels_err {n : ℕ} {toks : List String}
    (h : ∃ t ∈ usedToks n toks, pyOk (split_dword t) = false) :
    ∃ t ∈ usedToks n toks, decodeChannels n toks = .error (.dataParseError t) := by
  obtain ⟨t, ht, htf⟩ := h
  obtain ⟨c, hc, htc⟩ := List.mem_flatten.mp ht
  obtain ⟨t2, ht2, herr⟩ := mapM_decodeChunk_err ⟨c, hc, t, htc, htf⟩
  refine ⟨t2, ht2, ?_⟩
  rw [decodeChannels, herr]
  rfl

theorem recChannels_length {n : ℕ} (toks : List String) :
    (recChannels n toks).length = 2 * (toks.length / n) := by
  rw [recChannels, flatMap_pair_length, listChunks_length]

theorem recChannels_mem_length {n : ℕ} {toks : List String} (hn : 0 < n)
    {ch : List ℚ} (hch : ch ∈ recChannels n toks) : ch.length = n := by
  rw [recChannels] at hch
  obtain ⟨c, hc, hin⟩ := List.mem_flatMap.mp hch
  have hcl := mem_listChunks_length hn hc
  simp only [List.mem_cons, List.not_mem_nil, or_false] at hin
  rcases hin with rfl | rfl
  · simp [hcl]
  · simp [hcl]

/-- C3 amended: for the token sequence of one record — with `0 < nsample` —
(a) if every used token decodes and the token count yields exactly 8 chunks,
decoding succeeds and the (possibly shorter-than-a-chunk) surplus is
silently dropped; (b) if every used token decodes but the chunk count is not
8, the parse of the record fails with the generic untagged broadcast
`ValueError`, not a tagged parse error; (c) if a used token fails decoding,
the record fails with a `DataParseError` tagged with that offending token;
and (d) only the chunked prefix `toks.take (nsample * (len / nsample))` of
the tokens is ever used. -/
theorem record_error_amended (nsample : ℕ) (toks : List String) (hn : 0 < nsample) :
    ((∀ t ∈ usedToks nsample toks, pyOk (split_dword t) = true) →
      ((toks.length / nsample = 8 →
        processTokens nsample toks = .ok (recChannels nsample toks))
      ∧ (toks.length / nsample ≠ 8 →
        processTokens nsample toks =
          .error (.valueError "could not broadcast input array"))))
    ∧ ((∃ t ∈ usedToks nsample toks, pyOk (split_dword t) = false) →
      ∃ t ∈ usedToks nsample toks,
        processTokens nsample toks = .error (.dataParseError t))
    ∧ usedToks nsample toks = toks.take (nsample * (toks.length / nsample)) := by
  refine ⟨?_, ?_, listChunks_flatten nsample toks hn⟩
  · intro hok
    constructor
    · intro h8
      rw [processTokens, decodeChannels_ok hok]
      show npAssign nsample (recChannels nsample toks) = _
      rw [npAssign, if_pos]
      rw [Bool.and_eq_true, beq_iff_eq, List.all_eq_true]
      refine ⟨by rw [recChannels_length, h8], ?_⟩
      intro ch hch
      exact beq_iff_eq.mpr (recChannels_mem_length hn hch)
    · intro h8
      rw [processTokens, decodeChannels_ok hok]
      show npAssign nsample (recChannels nsample toks) = _
      rw [npAssign, if_neg]
      intro hcond
      rw [Bool.and_eq_true, beq_iff_eq] at hcond
      have := hcond.1
      rw [recChannels_length] at this
      omega
  · intro hbad
    obtain ⟨t, ht, herr⟩ := decodeChannels_err hbad
    refine ⟨t, ht, ?_⟩
    rw [processTokens, herr]
    rfl

/-- C3 amended witness: a record of 17 tokens over `nsample = 2` (one more
than the 16 a record needs) decodes successfully, silently dropping the
surplus token. -/
theorem record_error_amended_witness :
    processTokens 2 (List.replicate 17 "00000007") =
      .ok (recChannels 2 (List.replicate 17 "00000007")) :=
  ((record_error_amended 2 (List.replicate 17 "00000007") (by decide)).1
    (by decide)).1 (by decide)

/-- C3 counterexample: a complete v1 file whose single record carries 17
tokens — a wrong token count for `nsample = 2`, which needs 16 — parses
successfully with `output='raw'` (the surplus token is silently dropped and
no tagged parse error is raised), so a body with a wrong number of tokens
does not fail the whole parse. -/
theorem record_error_counterexample :
    rawData (parserV1
      { fit_signal := fun _ _ _ _ _ _ => .error .runtimeError,
        fmin := fun _ x _ => x, powerlaw_doubleexp := fun _ _ => 0,
        curve_fit := fun _ _ _ _ _ => .ok ([], []) }
      "p"
      ["L", "0", "a", "b", "c", "d", "1", "1", "9", "2",
        "", "",
        "00000001 00000002 00000003 00000004 00000005 00000006 00000007 00000008 00000009",
        "0000000a 0000000b 0000000c 0000000d 0000000e 0000000f 00000010 00000011",
        "x", "x", "x", "x", "x", "x", "", ""] "raw" "t") =
      some [[[[1, 2], [0, 0], [3, 4], [0, 0], [5, 6], [0, 0], [7, 8], [0, 0],
        [9, 10], [0, 0], [11, 12], [0, 0], [13, 14], [0, 0], [15, 16], [0, 0]]]]
    ∧ (concatToks
        ["00000001 00000002 00000003 00000004 00000005 00000006 00000007 00000008 00000009",
         "0000000a 0000000b 0000000c 0000000d 0000000e 0000000f 00000010 00000011"]).length
      = 17 := by
  constructor
  · decide
  · decide

/-! ### Claim C7: raw output shape and content -/

theorem getD_map_of_lt {α β : Type} (f : α → β) (db : β) (da : α) (l : List α)
    (k : ℕ) (hk : k < l.length) : (l.map f).getD k db = f (l.getD k da) := by
  rw [List.getD_eq_getElem?_getD, List.getElem?_map, List.getElem?_eq_getElem hk,
    List.getD_eq_getElem?_getD, List.getElem?_eq_getElem hk]
  rfl

theorem take_drop_getD {α : Type} (d : α) (l : List α) (a n s : ℕ) (hs : s < n)
    (_hsl : a + s < l.length) : ((l.drop a).take n).getD s d = l.getD (a + s) d := by
  rw [List.getD_eq_getElem?_getD, List.getElem?_take_of_lt hs,
    List.getElem?_drop, List.getD_eq_getElem?_getD]

theorem mem_usedToks_sub {n : ℕ} {toks : List String} {t : String}
    (h : t ∈ usedToks n toks) : t ∈ toks := by
  rw [usedToks] at h
  obtain ⟨c, hc, htc⟩ := List.mem_flatten.mp h
  simp only [listChunks, List.mem_map, List.mem_range] at hc
  obtain ⟨k, _, rfl⟩ := hc
  exact List.mem_of_mem_drop (List.mem_of_mem_take htc)

theorem pairsSched_length (n m : ℕ) : (pairsSched n m).length = n * m := by
  induction n with
  | zero => simp [pairsSched]
  | succ k ih =>
      have hsplit : pairsSched (k + 1) m =
          pairsSched k m ++ (List.range m).map fun j => (k, j) := by
        rw [pairsSched, pairsSched, List.range_succ, List.flatMap_append]
        simp [List.flatMap_cons]
      rw [hsplit, List.length_append, ih, List.length_map, List.length_range,
        Nat.succ_mul]

theorem pairsSched_sepFor_getD {n m k : ℕ} (hm : 0 < m) (hk : k < n * m) :
    sepFor ((pairsSched n m).getD k (0, 0)).1 ((pairsSched n m).getD k (0, 0)).2 =
      if k = 0 then 1 else 2 := by
  have hn : 0 < n := by
    by_contra hc
    have : n = 0 := by omega
    subst this
    simp at hk
  have hlen : (pairsSched n m).length = n * m := pairsSched_length n m
  have h1 : ((pairsSched n m).map fun p => sepFor p.1 p.2).getD k 0 =
      sepFor ((pairsSched n m).getD k (0, 0)).1 ((pairsSched n m).getD k (0, 0)).2 :=
    getD_map_of_lt _ 0 (0, 0) _ k (by omega)
  rw [pairsSched_map_sepFor hn hm] at h1
  rw [← h1]
  cases k with
  | zero => rfl
  | succ k2 =>
      simp only [List.getD_cons_succ]
      rw [List.getD_eq_getElem?_getD, List.getElem?_replicate]
      rw [if_pos (by omega)]
      simp

theorem readDataLines_append (dataL rest : List String) :
    readDataLines dataL.length (dataL ++ rest) = (concatToks dataL, rest) := by
  induction dataL with
  | nil => rfl
  | cons l t ih =>
      simp only [List.length_cons, List.cons_append, readDataLines, readline]
      rw [ih]
      simp [concatToks, List.flatMap_cons]

theorem readRecord_mk {sep front back nsample : ℕ} {r : RecLines}
    (hwf : r.wf sep front back nsample) (hn : 0 < nsample) (rest : List String) :
    readRecord sep front back nsample (r.flat ++ rest) =
      .ok (recChannels nsample (concatToks r.dataL), rest) := by
  obtain ⟨h1, h2, h3, h4, h5, h6, h7⟩ := hwf
  have e0 : r.flat ++ rest =
      r.sepL ++ (r.frontL ++ (r.dataL ++ (r.backL ++ (r.tailL ++ rest)))) := by
    rw [RecLines.flat]
    simp [List.append_assoc]
  have e1 : (r.flat ++ rest).drop sep =
      r.frontL ++ (r.dataL ++ (r.backL ++ (r.tailL ++ rest))) := by
    rw [e0, ← h1, List.drop_left]
  have e2 : ((r.flat ++ rest).drop sep).drop front =
      r.dataL ++ (r.backL ++ (r.tailL ++ rest)) := by
    rw [e1, ← h2, List.drop_left]
  have e3 : readDataLines nsample (((r.flat ++ rest).drop sep).drop front) =
      (concatToks r.dataL, r.backL ++ (r.tailL ++ rest)) := by
    rw [e2, ← h3, readDataLines_append]
  have hused : ∀ t ∈ usedToks nsample (concatToks r.dataL),
      pyOk (split_dword t) = true :=
    fun t ht => h7 t (mem_usedToks_sub ht)
  have h8 : (concatToks r.dataL).length / nsample = 8 := by
    rw [h6, Nat.mul_div_cancel _ hn]
  have hpt : processTokens nsample (concatToks r.dataL) =
      .ok (recChannels nsample (concatToks r.dataL)) :=
    ((record_error_amended nsample (concatToks r.dataL) hn).1 hused).1 h8
  rw [readRecord, read_and_discard_lines, read_and_discard_lines, e3]
  dsimp only
  rw [hpt]
  rw [read_and_discard_lines, read_and_discard_lines, ← h4, List.drop_left, ← h5,
    List.drop_left]

theorem bodyLoop_mk {front back nsample : ℕ} {sepOf : ℕ → ℕ → ℕ} (hn : 0 < nsample) :
    ∀ (sched : List (ℕ × ℕ)) (recs : List RecLines) (rest : List String),
      recs.length = sched.length →
      (∀ k, k < sched.length → (recs.getD k default).wf
        (sepOf ((sched.getD k (0, 0)).1) ((sched.getD k (0, 0)).2)) front back nsample) →
      bodyLoop sepOf front back nsample sched ((recs.map RecLines.flat).flatten ++ rest) =
        .ok (recs.map fun r => recChannels nsample (concatToks r.dataL), rest) := by
  intro sched
  induction sched with
  | nil =>
      intro recs rest hlen _
      have : recs = [] := List.length_eq_zero.mp (by simpa using hlen)
      subst this
      rfl
  | cons p st ih =>
      intro recs rest hlen hwf
      obtain ⟨a, b⟩ := p
      cases recs with
      | nil => simp at hlen
      | cons r rt =>
          have hwf0 := hwf 0 (by simp)
          simp only [List.getD_cons_zero] at hwf0
          have e0 : ((r :: rt).map RecLines.flat).flatten ++ rest =
              r.flat ++ (((rt.map RecLines.flat).flatten) ++ rest) := by
            simp [List.flatten_cons, List.append_assoc]
          rw [bodyLoop, e0, readRecord_mk hwf0 hn]
          dsimp only
          rw [ih rt rest (by simpa using hlen) ?hwfs]
          case hwfs =>
            intro k hk
            have := hwf (k + 1) (by simpa using Nat.succ_lt_succ hk)
            simpa using this
          rfl

theorem rawTensorOf_shape {recs : List RecLines} {nstepN ntrialN nsampleN : ℕ}
    (hlen : recs.length = nstepN * ntrialN) (htr : 0 < ntrialN) (hn : 0 < nsampleN)
    (hwf : ∀ r ∈ recs, (concatToks r.dataL).length = 8 * nsampleN) :
    (rawTensorOf recs ntrialN nsampleN).length = nstepN
    ∧ (∀ st ∈ rawTensorOf recs ntrialN nsampleN, st.length = ntrialN)
    ∧ (∀ st ∈ rawTensorOf recs ntrialN nsampleN, ∀ rec ∈ st,
        rec.length = 16 ∧ ∀ ch ∈ rec, ch.length = nsampleN) := by
  have hmlen : (recs.map fun r => recChannels nsampleN (concatToks r.dataL)).length =
      nstepN * ntrialN := by rw [List.length_map, hlen]
  refine ⟨?_, ?_, ?_⟩
  · rw [rawTensorOf, listChunks_length, hmlen, Nat.mul_div_cancel _ htr]
  · intro st hst
    exact mem_listChunks_length htr hst
  · intro st hst rec hrec
    have hrecm : rec ∈ recs.map fun r => recChannels nsampleN (concatToks r.dataL) := by
      rw [rawTensorOf] at hst
      simp only [listChunks, List.mem_map, List.mem_range] at hst
      obtain ⟨k, _, rfl⟩ := hst
      exact List.mem_of_mem_drop (List.mem_of_mem_take hrec)
    obtain ⟨r, hr, rfl⟩ := List.mem_map.mp hrecm
    constructor
    · rw [recChannels_length, hwf r hr, Nat.mul_div_cancel _ hn]
    · intro ch hch
      exact recChannels_mem_length hn hch

theorem recChannels_entry {n : ℕ} {toks : List String} (hn : 0 < n)
    (h8 : toks.length / n = 8) {c s : ℕ} (hc : c < 16) (hs : s < n) :
    ((recChannels n toks).getD c []).getD s 0 = chanValue n toks c s := by
  have hf : ∀ (cs : List (List String)) (c2 : ℕ), c2 < 2 * cs.length →
      ((cs.flatMap fun ch => [ch.map lowOf, ch.map highOf]).getD c2 []) =
      (if c2 % 2 = 0 then (cs.getD (c2 / 2) []).map lowOf
        else (cs.getD (c2 / 2) []).map highOf) := by
    intro cs
    induction cs with
    | nil => intro c2 hc2; simp at hc2
    | cons a t iht =>
        intro c2 hc2
        match c2 with
        | 0 => rfl
        | 1 => rfl
        | c3 + 2 =>
            simp only [List.flatMap_cons, List.cons_append, List.getD_cons_succ,
              List.nil_append]
            rw [iht c3 (by simp at hc2; omega)]
            have hm : (c3 + 2) % 2 = c3 % 2 := by omega
            have hd : (c3 + 2) / 2 = c3 / 2 + 1 := by omega
            rw [hm, hd, List.getD_cons_succ]
  have hc2 : c < 2 * (listChunks n toks).length := by
    rw [listChunks_length, h8]
    omega
  have hcd : c / 2 < toks.length / n := by
    rw [h8]
    omega
  have hlow : c / 2 * n + n ≤ toks.length := by
    have := (Nat.le_div_iff_mul_le hn).mp hcd
    rw [Nat.succ_mul] at this
    omega
  have hchunk := listChunks_getD hcd
  rw [recChannels, hf (listChunks n toks) c hc2, chanValue]
  by_cases hpar : c % 2 = 0
  · rw [if_pos hpar, if_pos hpar, hchunk]
    have hlen_take : s < ((toks.drop (c / 2 * n)).take n).length := by
      simp only [List.length_take, List.length_drop]
      omega
    rw [getD_map_of_lt lowOf 0 "" _ s hlen_take]
    rw [take_drop_getD "" toks (c / 2 * n) n s hs (by omega)]
  · rw [if_neg hpar, if_neg hpar, hchunk]
    have hlen_take : s < ((toks.drop (c / 2 * n)).take n).length := by
      simp only [List.length_take, List.length_drop]
      omega
    rw [getD_map_of_lt highOf 0 "" _ s hlen_take]
    rw [take_drop_getD "" toks (c / 2 * n) n s hs (by omega)]

theorem rawTensorOf_entry {recs : List RecLines} {nstepN ntrialN nsampleN : ℕ}
    (hlen : recs.length = nstepN * ntrialN) (htr : 0 < ntrialN) (hn : 0 < nsampleN)
    (hwf : ∀ r ∈ recs, (concatToks r.dataL).length = 8 * nsampleN)
    {i j c s : ℕ} (hi : i < nstepN) (hj : j < ntrialN) (hc : c < 16)
    (hs : s < nsampleN) :
    dataAt (rawTensorOf recs ntrialN nsampleN) i j c s =
      chanValue nsampleN (concatToks ((recs.getD (i * ntrialN + j) default).dataL)) c s := by
  have hmlen : (recs.map fun r => recChannels nsampleN (concatToks r.dataL)).length =
      nstepN * ntrialN := by rw [List.length_map, hlen]
  have hk : i * ntrialN + j < nstepN * ntrialN := by
    have h1 : (i + 1) * ntrialN ≤ nstepN * ntrialN := Nat.mul_le_mul_right _ hi
    rw [Nat.succ_mul] at h1
    omega
  have hstep : (rawTensorOf recs ntrialN nsampleN).getD i [] =
      ((recs.map fun r => recChannels nsampleN (concatToks r.dataL)).drop
        (i * ntrialN)).take ntrialN := by
    rw [rawTensorOf]
    exact listChunks_getD (by rw [hmlen, Nat.mul_div_cancel _ htr]; exact hi)
  have htrial : (((recs.map fun r => recChannels nsampleN (concatToks r.dataL)).drop
      (i * ntrialN)).take ntrialN).getD j [] =
      (recs.map fun r => recChannels nsampleN (concatToks r.dataL)).getD
        (i * ntrialN + j) [] :=
    take_drop_getD [] _ (i * ntrialN) ntrialN j hj (by rw [hmlen]; exact hk)
  have hrec : (recs.map fun r => recChannels nsampleN (concatToks r.dataL)).getD
      (i * ntrialN + j) [] =
      recChannels nsampleN (concatToks ((recs.getD (i * ntrialN + j) default).dataL)) :=
    getD_map_of_lt _ [] default recs _ (by rw [hlen]; exact hk)
  have hmem : recs.getD (i * ntrialN + j) default ∈ recs := by
    rw [List.getD_eq_getElem?_getD, List.getElem?_eq_getElem (by rw [hlen]; exact hk)]
    exact List.getElem_mem _
  have h8 : (concatToks ((recs.getD (i * ntrialN + j) default).dataL)).length /
      nsampleN = 8 := by
    rw [hwf _ hmem, Nat.mul_div_cancel _ hn]
  rw [dataAt, hstep, htrial, hrec]
  exact recChannels_entry hn h8 hc hs

/-- C7: for every structurally valid v1 or v2 file with consistent
header/body line counts (a parsed header; a body that is exactly the
well-formed records of the advertised geometry, each carrying exactly
`8 * nsample` decodable tokens; positive trial and sample counts), parsing
with `output='raw'` succeeds and returns the post-decode, pre-reduction
waveform tensor of shape exactly `(n_steps, n_trials, 16, n_samples)`, and
every entry equals the decoded low/high half of its corresponding source
token — so no entry is left at the zero-initialization default unless its
source decodes to zero. -/
theorem raw_output_shape_content :
    (∀ (L : NumLib) (path today : String) (file bodyRest : List String)
      (hdr : V1Header) (recs : List RecLines)
      (nstepN ntrialN nsampleN frontN backN : ℕ),
      parseV1Header file = .ok (hdr, (recs.map RecLines.flat).flatten ++ bodyRest) →
      hdr.nstep = (nstepN : ℤ) → hdr.nstep_event = (ntrialN : ℤ) →
      hdr.nsample = (nsampleN : ℤ) →
      frontN = (Int.fdiv hdr.offset 16 * hdr.nsample).toNat →
      backN = ((3 - Int.fdiv hdr.offset 16) * hdr.nsample).toNat →
      0 < ntrialN → 0 < nsampleN →
      recs.length = nstepN * ntrialN →
      (∀ r ∈ recs, r.wf 2 frontN backN nsampleN) →
      parserV1 L path file "raw" today = .ok (.raw (rawTensorOf recs ntrialN nsampleN))
      ∧ (rawTensorOf recs ntrialN nsampleN).length = nstepN
      ∧ (∀ st ∈ rawTensorOf recs ntrialN nsampleN, st.length = ntrialN)
      ∧ (∀ st ∈ rawTensorOf recs ntrialN nsampleN, ∀ rec ∈ st,
          rec.length = 16 ∧ ∀ ch ∈ rec, ch.length = nsampleN)
      ∧ (∀ i j c s, i < nstepN → j < ntrialN → c < 16 → s < nsampleN →
          dataAt (rawTensorOf recs ntrialN nsampleN) i j c s =
            chanValue nsampleN
              (concatToks ((recs.getD (i * ntrialN + j) default).dataL)) c s))
    ∧ (∀ (L : NumLib) (path today : String) (file bodyRest : List String)
      (hdr : V2Header) (recs : List RecLines)
      (nstepN ntrialN nsampleN frontN backN : ℕ),
      parseV2Header file = .ok (hdr, (recs.map RecLines.flat).flatten ++ bodyRest) →
      hdr.numberofsteps = (nstepN : ℤ) → hdr.eventsperstep = (ntrialN : ℤ) →
      hdr.nsamples = (nsampleN : ℤ) →
      frontN = (Int.fdiv hdr.channelmin 16 * hdr.nsamples).toNat →
      backN = ((3 - Int.fdiv hdr.channelmin 16) * hdr.nsamples).toNat →
      0 < ntrialN → 0 < nsampleN →
      recs.length = nstepN * ntrialN →
      (∀ k, k < recs.length →
        (recs.getD k default).wf (if k = 0 then 1 else 2) frontN backN nsampleN) →
      parserV2 L path file "raw" today = .ok (.raw (rawTensorOf recs ntrialN nsampleN))
      ∧ (rawTensorOf recs ntrialN nsampleN).length = nstepN
      ∧ (∀ st ∈ rawTensorOf recs ntrialN nsampleN, st.length = ntrialN)
      ∧ (∀ st ∈ rawTensorOf recs ntrialN nsampleN, ∀ rec ∈ st,
          rec.length = 16 ∧ ∀ ch ∈ rec, ch.length = nsampleN)
      ∧ (∀ i j c s, i < nstepN → j < ntrialN → c < 16 → s < nsampleN →
          dataAt (rawTensorOf recs ntrialN nsampleN) i j c s =
            chanValue nsampleN
              (concatToks ((recs.getD (i * ntrialN + j) default).dataL)) c s)) := by
  constructor
  · intro L path today file bodyRest hdr recs nstepN ntrialN nsampleN frontN backN
      hh hst htr2 hsa hfr hbk htr hn hlen hwf
    have hwflen : ∀ r ∈ recs, (concatToks r.dataL).length = 8 * nsampleN :=
      fun r hr => (hwf r hr).2.2.2.2.2.1
    have hraw : parserV1 L path file "raw" today =
        .ok (.raw (rawTensorOf recs ntrialN nsampleN)) := by
      rw [parserV1, hh]
      dsimp only
      have hneg : ¬(hdr.nstep < 0 ∨ hdr.nstep_event < 0 ∨ hdr.nsample < 0) := by
        rw [hst, htr2, hsa]
        omega
      rw [if_neg hneg]
      have h1 : hdr.nstep.toNat = nstepN := by rw [hst]; rfl
      have h2 : hdr.nstep_event.toNat = ntrialN := by rw [htr2]; rfl
      have h3 : hdr.nsample.toNat = nsampleN := by rw [hsa]; rfl
      rw [← hfr, ← hbk, h1, h2, h3]
      have hlen2 : recs.length = (pairsSched nstepN ntrialN).length := by
        rw [pairsSched_length, hlen]
      have hwf2 : ∀ k, k < (pairsSched nstepN ntrialN).length →
          (recs.getD k default).wf
            ((fun _ _ => 2) ((pairsSched nstepN ntrialN).getD k (0, 0)).1
              ((pairsSched nstepN ntrialN).getD k (0, 0)).2) frontN backN nsampleN := by
        intro k hk
        have hkr : k < recs.length := by rw [hlen2]; exact hk
        refine hwf _ ?_
        rw [List.getD_eq_getElem?_getD, List.getElem?_eq_getElem hkr]
        exact List.getElem_mem _
      rw [bodyLoop_mk hn (pairsSched nstepN ntrialN) recs bodyRest hlen2 hwf2]
      dsimp only
      rw [if_pos (show (("raw" : String) == "raw") = true from rfl)]
      rw [rawTensorOf]
    refine ⟨hraw, (rawTensorOf_shape hlen htr hn hwflen).1,
      (rawTensorOf_shape hlen htr hn hwflen).2.1,
      (rawTensorOf_shape hlen htr hn hwflen).2.2, ?_⟩
    intro i j c s hi hj hc hs
    exact rawTensorOf_entry hlen htr hn hwflen hi hj hc hs
  · intro L path today file bodyRest hdr recs nstepN ntrialN nsampleN frontN backN
      hh hst htr2 hsa hfr hbk htr hn hlen hwf
    have hwflen : ∀ r ∈ recs, (concatToks r.dataL).length = 8 * nsampleN := by
      intro r hr
      obtain ⟨k, hk, rfl⟩ := List.mem_iff_getElem.mp hr
      have := (hwf k hk).2.2.2.2.2.1
      rwa [List.getD_eq_getElem?_getD, List.getElem?_eq_getElem hk] at this
    have hraw : parserV2 L path file "raw" today =
        .ok (.raw (rawTensorOf recs ntrialN nsampleN)) := by
      rw [parserV2, hh]
      dsimp only
      have hneg : ¬(hdr.numberofsteps < 0 ∨ hdr.eventsperstep < 0 ∨
          hdr.nsamples < 0) := by
        rw [hst, htr2, hsa]
        omega
      rw [if_neg hneg]
      have h1 : hdr.numberofsteps.toNat = nstepN := by rw [hst]; rfl
      have h2 : hdr.eventsperstep.toNat = ntrialN := by rw [htr2]; rfl
      have h3 : hdr.nsamples.toNat = nsampleN := by rw [hsa]; rfl
      rw [← hfr, ← hbk, h1, h2, h3]
      have hlen2 : recs.length = (pairsSched nstepN ntrialN).length := by
        rw [pairsSched_length, hlen]
      have hwf2 : ∀ k, k < (pairsSched nstepN ntrialN).length →
          (recs.getD k default).wf
            (sepFor ((pairsSched nstepN ntrialN).getD k (0, 0)).1
              ((pairsSched nstepN ntrialN).getD k (0, 0)).2) frontN backN nsampleN := by
        intro k hk
        have hk2 : k < nstepN * ntrialN := by rw [← pairsSched_length nstepN ntrialN]; exact hk
        rw [pairsSched_sepFor_getD htr hk2]
        exact hwf k (by rw [hlen]; exact hk2)
      rw [bodyLoop_mk hn (pairsSched nstepN ntrialN) recs bodyRest hlen2 hwf2]
      dsimp only
      rw [if_pos (show (("raw" : String) == "raw") = true from rfl)]
      rw [rawTensorOf]
    refine ⟨hraw, (rawTensorOf_shape hlen htr hn hwflen).1,
      (rawTensorOf_shape hlen htr hn hwflen).2.1,
      (rawTensorOf_shape hlen htr hn hwflen).2.2, ?_⟩
    intro i j c s hi hj hc hs
    exact rawTensorOf_entry hlen htr hn hwflen hi hj hc hs

/-- C7 witness: concrete one-record v1 and v2 files parsed in raw mode. -/
theorem raw_output_shape_content_witness :
    parserV1
      { fit_signal := fun _ _ _ _ _ _ => .error .runtimeError,
        fmin := fun _ x _ => x, powerlaw_doubleexp := fun _ _ => 0,
        curve_fit := fun _ _ _ _ _ => .ok ([], []) }
      "p"
      ["L", "0", "a", "b", "c", "d", "1", "1", "9", "1", "", "",
        "00000001 00000002 00000003 00000004 00000005 00000006 00000007 00000008",
        "x", "x", "x", "", ""] "raw" "t" =
      .ok (.raw (rawTensorOf
        [⟨["", ""], [],
          ["00000001 00000002 00000003 00000004 00000005 00000006 00000007 00000008"],
          ["x", "x", "x"], ["", ""]⟩] 1 1))
    ∧ parserV2
      { fit_signal := fun _ _ _ _ _ _ => .error .runtimeError,
        fmin := fun _ x _ => x, powerlaw_doubleexp := fun _ _ => 0,
        curve_fit := fun _ _ _ _ _ => .ok ([], []) }
      "p"
      ["BOARDID:B", "CHANNELMIN:0", "NUMBEROFSTEPS:1", "EVENTSPERSTEP:1",
        "DACPERSTEP:5", "NSAMPLES:1", "", "",
        "00000001 00000002 00000003 00000004 00000005 00000006 00000007 00000008",
        "x", "x", "x", "", ""] "raw" "t" =
      .ok (.raw (rawTensorOf
        [⟨[""], [],
          ["00000001 00000002 00000003 00000004 00000005 00000006 00000007 00000008"],
          ["x", "x", "x"], ["", ""]⟩] 1 1)) :=
  ⟨(raw_output_shape_content.1
      { fit_signal := fun _ _ _ _ _ _ => .error .runtimeError,
        fmin := fun _ x _ => x, powerlaw_doubleexp := fun _ _ => 0,
        curve_fit := fun _ _ _ _ _ => .ok ([], []) }
      "p" "t"
      ["L", "0", "a", "b", "c", "d", "1", "1", "9", "1", "", "",
        "00000001 00000002 00000003 00000004 00000005 00000006 00000007 00000008",
        "x", "x", "x", "", ""] []
      ⟨"L", 0, 1, 1, 9, 1⟩
      [⟨["", ""], [],
        ["00000001 00000002 00000003 00000004 00000005 00000006 00000007 00000008"],
        ["x", "x", "x"], ["", ""]⟩] 1 1 1 0 3
      (by decide) (by decide) (by decide) (by decide) (by decide) (by decide)
      (by decide) (by decide) (by decide) (by decide)).1,
   (raw_output_shape_content.2
      { fit_signal := fun _ _ _ _ _ _ => .error .runtimeError,
        fmin := fun _ x _ => x, powerlaw_doubleexp := fun _ _ => 0,
        curve_fit := fun _ _ _ _ _ => .ok ([], []) }
      "p" "t"
      ["BOARDID:B", "CHANNELMIN:0", "NUMBEROFSTEPS:1", "EVENTSPERSTEP:1",
        "DACPERSTEP:5", "NSAMPLES:1", "", "",
        "00000001 00000002 00000003 00000004 00000005 00000006 00000007 00000008",
        "x", "x", "x", "", ""] []
      ⟨"B", 0, 1, 1, 5, 1,
        [("BOARDID", "B"), ("CHANNELMIN", "0"), ("NUMBEROFSTEPS", "1"),
          ("EVENTSPERSTEP", "1"), ("DACPERSTEP", "5"), ("NSAMPLES", "1")]⟩
      [⟨[""], [],
        ["00000001 00000002 00000003 00000004 00000005 00000006 00000007 00000008"],
        ["x", "x", "x"], ["", ""]⟩] 1 1 1 0 3
      (by decide) (by decide) (by decide) (by decide) (by decide) (by decide)
      (by decide) (by decide) (by decide) (by decide)).1⟩

end Squash
